import Mathlib

/-!
# Verification of the lunacy-tools color-palette engine

Shallow embedding of `src/main.rs` (techgeek1/lunacy-tools).  The Rust source
manipulates `f64` values whose arithmetic here is modelled exactly over `ℚ`
(all operations used are field operations, `abs`, `round`, `rem_euclid`,
`clamp`, and comparisons, which coincide with real arithmetic except for
binary floating-point rounding noise); strings are modelled as `List Char`
(the source only ever slices at ASCII boundaries); `Uuid::new_v4` identity
minting is modelled by a caller-supplied counter, which the specification
explicitly allows ("the core only requires tokens to be comparable and
freshly mintable"); the JSON / zip document boundary is elided, a document's
`colorVariables` array being taken directly as a list of already-decoded
`Color` records, as the specification scopes those collaborators out.
-/

set_option autoImplicit false
set_option maxRecDepth 10000

deriving instance DecidableEq for Except

attribute [local semireducible] Rat.mul Rat.add Rat.sub Rat.inv

/-- Strings are modelled as lists of characters. -/
abbrev Str := List Char

/-- `f64::round` of Rust: round half away from zero (exact on rationals). -/
def rustRound (x : ℚ) : ℚ :=
  if x < 0 then -((⌊-x + 1/2⌋ : ℤ) : ℚ) else ((⌊x + 1/2⌋ : ℤ) : ℚ)

/-- `f64::clamp` of Rust (for `lo ≤ hi`, NaN elided). -/
def clampQ (x lo hi : ℚ) : ℚ :=
  if x < lo then lo else if x > hi then hi else x

/-- `f64::rem_euclid` of Rust for a positive modulus: `x - m * ⌊x / m⌋`. -/
def rustRemEuclid (x m : ℚ) : ℚ := x - m * ⌊x / m⌋

/-- Errors of the modelled program.  `ColorParseError::InvalidFormat` and
`ColorParseError::InvalidValue` are the two codec errors of the source;
`cliParse` stands for the `Err(String)` of `parse_base_color` (message text
elided); `indexPanic` models a Rust panic on out-of-bounds `Vec` indexing. -/
inductive Err where
  | invalidFormat
  | invalidValue
  | cliParse
  | indexPanic
  deriving DecidableEq, Repr

/-- Value of one hexadecimal digit, both cases, as accepted by
`u32::from_str_radix(_, 16)`. -/
def hexDigitVal (c : Char) : Option Nat :=
  if '0' ≤ c ∧ c ≤ '9' then some (c.toNat - '0'.toNat)
  else if 'a' ≤ c ∧ c ≤ 'f' then some (c.toNat - 'a'.toNat + 10)
  else if 'A' ≤ c ∧ c ≤ 'F' then some (c.toNat - 'A'.toNat + 10)
  else none

/-- Digit-accumulation loop of `from_str_radix`: most significant digit
first, failing on the first non-digit. -/
def hexDigitsVal (l : List Char) : Option Nat :=
  l.foldl (fun acc? c =>
    match acc?, hexDigitVal c with
    | some acc, some d => some (acc * 16 + d)
    | _, _ => none) (some 0)

/-- `u32::from_str_radix(s, 16)` of Rust: an optional leading `+` (a `-` never
parses for an unsigned type), then one or more hex digits, with a `u32`
overflow check. -/
def from_str_radix16 (s : Str) : Except Err Nat :=
  let digits := match s with
    | '+' :: rest => rest
    | _ => s
  match digits with
  | [] => .error .invalidValue
  | _ =>
    match hexDigitsVal digits with
    | none => .error .invalidValue
    | some n => if n > 4294967295 then .error .invalidValue else .ok n

/-- `hex_to_rgb` of the source: requires exactly `#` + 6 hex digits by length
and leading-`#` checks, then parses and splits the 24-bit value. -/
def hex_to_rgb (value : Str) : Except Err (ℚ × ℚ × ℚ) :=
  if value.length ≠ 7 then .error .invalidFormat
  else if ¬ ['#'].isPrefixOf value then .error .invalidFormat
  else
    match from_str_radix16 (value.drop 1) with
    | .error e => .error e
    | .ok hex =>
      let b := (hex >>> 0) &&& 0xff
      let g := (hex >>> 8) &&& 0xff
      let r := (hex >>> 16) &&& 0xff
      .ok ((r : ℚ), (g : ℚ), (b : ℚ))

/-- `hex_to_hsl` of the source. -/
def hex_to_hsl (value : Str) : Except Err (ℚ × ℚ × ℚ) :=
  match hex_to_rgb value with
  | .error e => .error e
  | .ok (r0, g0, b0) =>
    let r := r0 / 255
    let g := g0 / 255
    let b := b0 / 255
    let cmin := min (min r g) b
    let cmax := max (max r g) b
    let delta := cmax - cmin
    let h0 : ℚ :=
      if delta = 0 then 0
      else if cmax = r then rustRemEuclid ((g - b) / delta) 6
      else if cmax = g then (b - r) / delta + 2
      else (r - g) / delta + 4
    let h1 := rustRound (h0 * 60)
    let h := if h1 < 0 then h1 + 360 else h1
    let l := (cmax + cmin) / 2
    let s := if delta = 0 then (0 : ℚ) else delta / (1 - |2 * l - 1|)
    .ok (h, s * 100, l * 100)

/-- `f64 as u32` of Rust: truncation toward zero with saturation. -/
def rustAsU32 (x : ℚ) : Nat := min (Int.toNat ⌊x⌋) 4294967295

/-- `hsl_to_rgb` of the source. -/
def hsl_to_rgb (h s l : ℚ) : Nat × Nat × Nat :=
  let s := clampQ s 0 100 / 100
  let l := clampQ l 0 100 / 100
  let c := (1 - |2 * l - 1|) * s
  let x := c * (1 - |rustRemEuclid (h / 60) 2 - 1|)
  let m := l - c / 2
  let rgb : ℚ × ℚ × ℚ :=
    if 0 ≤ h ∧ h < 60 then (c, x, 0)
    else if 60 ≤ h ∧ h < 120 then (x, c, 0)
    else if 120 ≤ h ∧ h < 180 then (0, c, x)
    else if 180 ≤ h ∧ h < 240 then (0, x, c)
    else if 240 ≤ h ∧ h < 300 then (x, 0, c)
    else if 300 ≤ h ∧ h < 360 then (c, 0, x)
    else (0, 0, 0)
  (rustAsU32 (rustRound ((rgb.1 + m) * 255)),
   rustAsU32 (rustRound ((rgb.2.1 + m) * 255)),
   rustAsU32 (rustRound ((rgb.2.2 + m) * 255)))

/-- One lowercase hexadecimal digit character. -/
def hexChar (d : Nat) : Char := "0123456789abcdef".data.getD d '0'

/-- Hex digits of `n`, most significant first, via explicit fuel (the fuel
`n` itself always suffices since `n < 16 ^ n` for `n > 0`). -/
def toHexAux : Nat → Nat → List Char
  | 0, _ => []
  | fuel + 1, n => if n = 0 then [] else toHexAux fuel (n / 16) ++ [hexChar (n % 16)]

/-- Hex digits of `n` without padding, as printed by `{:x}`. -/
def toHex (n : Nat) : Str := if n = 0 then ['0'] else toHexAux n n

/-- `format!("{:06x}", n)` of Rust: lowercase hex, zero-padded to width 6. -/
def format06x (n : Nat) : Str :=
  List.replicate (6 - (toHex n).length) '0' ++ toHex n

/-- `hsl_to_hex` of the source: packs the rounded channels and formats them
as exactly six zero-padded lowercase hex digits, with no `#`. -/
def hsl_to_hex (h s l : ℚ) : Str :=
  let rgb := hsl_to_rgb h s l
  let value := (rgb.1 <<< 16) ||| (rgb.2.1 <<< 8) ||| (rgb.2.2 <<< 0)
  format06x value


/-! ## Scale generator -/

/-- `MAX_STOPS` of the source. -/
def MAX_STOPS : Nat := 9

/-- `DISTRIBUTION_STOPS` of the source: the extended grid used while
computing the distribution. -/
def DISTRIBUTION_STOPS : List Nat :=
  [0, 50, 100, 200, 300, 400, 500, 600, 700, 800, 900, 950, 1000]

/-- `STOPS` of the source: the nine public stops actually emitted. -/
def STOPS : List Nat := [100, 200, 300, 400, 500, 600, 700, 800, 900]

/-- `index_of` of `create_distribution`: position of `stop` in
`DISTRIBUTION_STOPS` as an `f64`, `-1.0` when absent. -/
def index_of (stop : Nat) : ℚ :=
  match DISTRIBUTION_STOPS.findIdx? (fun x => x == stop) with
  | some i => (i : ℚ)
  | none => -1

/-- Loop body of `create_distribution` for one grid value `sv` (the source
computes `diff`, `total`, `increment` and `tweak` inline; `index_of 0` and
`index_of 1000` stand for `index_of(DISTRIBUTION_STOPS[0])` and
`index_of(DISTRIBUTION_STOPS[DISTRIBUTION_STOPS.len() - 1])`).  Note that
the parameters are named exactly as in the source: `min` and `max` are the
*function's* parameter names, which the call site fills with `l_max` and
`l_min` respectively (the arguments are swapped there). -/
def tweakAt (min max lightness : ℚ) (stop sv : Nat) : ℚ :=
  let diff := |((sv : ℚ) - (stop : ℚ)) / 100|
  if sv < stop then
    let total := |index_of stop - index_of 0| - 1
    let increment := max - lightness
    (increment / total) * diff + lightness
  else
    let total := |index_of stop - index_of 1000| - 1
    let increment := lightness - min
    lightness - (increment / total) * diff

/-- Swap two positions of a list (the `tweaks.swap(a, b)` closure). -/
def listSwap (l : List ℚ) (a b : Nat) : List ℚ :=
  let x := l.getD a 0
  let y := l.getD b 0
  (l.set a y).set b x

/-- Inner `loop` of `sort_by_indices`: follow one permutation cycle,
swapping elements of `tweaks` as the source does.  The fuel only bounds the
cycle walk (a cycle of a permutation of length `n` is followed in at most
`n` steps, so the caller's fuel is never exhausted). -/
def sbiLoop : Nat → List Nat → List ℚ → Nat → List Nat × List ℚ
  | 0, indices, tweaks, _ => (indices, tweaks)
  | fuel + 1, indices, tweaks, currentIdx =>
    let targetIdx := indices.getD currentIdx 0
    let indices := indices.set currentIdx currentIdx
    if indices.getD targetIdx 0 = targetIdx then (indices, tweaks)
    else sbiLoop fuel indices (listSwap tweaks currentIdx targetIdx) targetIdx

/-- `sort_by_indices` of the source: reorder `tweaks` in place so that the
element that was at position `indices[i]` ends up at position `i`,
by walking the permutation cycles. -/
def sort_by_indices (len : Nat) (indices : List Nat) (tweaks : List ℚ) : List ℚ :=
  ((List.range len).foldl (fun st idx =>
    if st.1.getD idx 0 ≠ idx then sbiLoop (len + 1) st.1 st.2 idx
    else st) (indices, tweaks)).2

/-- Stable insertion into an ascending argsort (`i` is placed before later
indices with an equal key, matching Rust's stable `sort_by_key`). -/
def insertIdxAsc (keys : List Nat) (i : Nat) : List Nat → List Nat
  | [] => [i]
  | j :: rest =>
    if keys.getD i 0 ≤ keys.getD j 0 then i :: j :: rest
    else j :: insertIdxAsc keys i rest

/-- `indices.sort_by_key(|i| stops[*i])` of the source: the list
`0, …, n-1` stably sorted so that `stops` read through it is ascending. -/
def argsortAsc (keys : List Nat) : List Nat :=
  (List.range keys.length).foldr (insertIdxAsc keys) []

/-- `BaseColor::create_distribution` of the source.  The parameter order
`(min, max, lightness, stop)` is the declaration's; `create_tints` calls it
as `create_distribution(max, min, l, stop)`. -/
def create_distribution (min max lightness : ℚ) (stop : Nat) : List ℚ :=
  let loopStops := DISTRIBUTION_STOPS.filter (fun sv => !(sv == 0 || sv == 1000 || sv == stop))
  let stops : List Nat := [0, stop, 1000] ++ loopStops
  let tweaks : List ℚ :=
    [max, lightness, min] ++ loopStops.map (fun sv => rustRound (tweakAt min max lightness stop sv))
  let indices := (argsortAsc stops).reverse
  let sorted := sort_by_indices tweaks.length indices tweaks
  ((sorted.drop 2).dropLast).dropLast

/-! ### The data path of `sort_by_indices` follows a swap trace computed
from `indices` alone.  This lets concrete permutations act on lists of
symbolic entries without re-running the cycle walk on them. -/

/-- Apply a list of transpositions in order. -/
def applySwaps : List (Nat × Nat) → List ℚ → List ℚ
  | [], xs => xs
  | (a, b) :: rest, xs => applySwaps rest (listSwap xs a b)

/-- Control part of `sbiLoop`: the final `indices` and the sequence of swaps
performed, which do not depend on the data list. -/
def sbiLoopC : Nat → List Nat → Nat → List Nat × List (Nat × Nat)
  | 0, indices, _ => (indices, [])
  | fuel + 1, indices, currentIdx =>
    let targetIdx := indices.getD currentIdx 0
    let indices := indices.set currentIdx currentIdx
    if indices.getD targetIdx 0 = targetIdx then (indices, [])
    else
      let r := sbiLoopC fuel indices targetIdx
      (r.1, (currentIdx, targetIdx) :: r.2)

/-- One outer-loop step of `sort_by_indices` (data part). -/
def sbiStepD (len : Nat) (st : List Nat × List ℚ) (idx : Nat) : List Nat × List ℚ :=
  if st.1.getD idx 0 ≠ idx then sbiLoop (len + 1) st.1 st.2 idx else st

/-- One outer-loop step of `sort_by_indices` (control part, collecting the
swap trace instead of performing the swaps). -/
def sbiStepC (len : Nat) (st : List Nat × List (Nat × Nat)) (idx : Nat) :
    List Nat × List (Nat × Nat) :=
  if st.1.getD idx 0 ≠ idx then
    ((sbiLoopC (len + 1) st.1 idx).1, st.2 ++ (sbiLoopC (len + 1) st.1 idx).2)
  else st

/-- Control part of `sort_by_indices`: the full swap trace. -/
def sortTrace (len : Nat) (indices : List Nat) : List (Nat × Nat) :=
  ((List.range len).foldl (sbiStepC len) (indices, [])).2

theorem applySwaps_append (s₁ s₂ : List (Nat × Nat)) (xs : List ℚ) :
    applySwaps (s₁ ++ s₂) xs = applySwaps s₂ (applySwaps s₁ xs) := by
  induction s₁ generalizing xs with
  | nil => rfl
  | cons p rest ih => obtain ⟨a, b⟩ := p; simp [applySwaps, ih]

theorem sbiLoop_eq_trace (fuel : Nat) :
    ∀ (indices : List Nat) (xs : List ℚ) (cur : Nat),
      sbiLoop fuel indices xs cur =
        ((sbiLoopC fuel indices cur).1, applySwaps (sbiLoopC fuel indices cur).2 xs) := by
  induction fuel with
  | zero => intro indices xs cur; rfl
  | succ fuel ih =>
    intro indices xs cur
    rw [sbiLoop, sbiLoopC]
    by_cases h :
        (indices.set cur cur).getD (indices.getD cur 0) 0 = indices.getD cur 0
    · simp only [if_pos h, applySwaps]
    · simp only [if_neg h, ih, applySwaps]

theorem foldl_sbiStepC_acc (len : Nat) (l : List Nat) :
    ∀ (s : List Nat) (acc : List (Nat × Nat)),
      l.foldl (sbiStepC len) (s, acc) =
        ((l.foldl (sbiStepC len) (s, [])).1,
          acc ++ (l.foldl (sbiStepC len) (s, [])).2) := by
  induction l with
  | nil => intro s acc; simp
  | cons idx rest ih =>
    intro s acc
    simp only [List.foldl_cons]
    by_cases h : s.getD idx 0 ≠ idx
    · rcases hC : sbiLoopC (len + 1) s idx with ⟨s', tr⟩
      have e1 : sbiStepC len (s, acc) idx = (s', acc ++ tr) := by
        simp only [sbiStepC]; rw [if_pos h, hC]
      have e2 : sbiStepC len (s, []) idx = (s', tr) := by
        simp only [sbiStepC]; rw [if_pos h, hC]; rw [List.nil_append]
      rw [e1, e2, ih s' (acc ++ tr), ih s' tr]
      simp [List.append_assoc]
    · have e1 : sbiStepC len (s, acc) idx = (s, acc) := by
        simp only [sbiStepC]; rw [if_neg h]
      have e2 : sbiStepC len (s, []) idx = (s, []) := by
        simp only [sbiStepC]; rw [if_neg h]
      rw [e1, e2]; exact ih s acc

theorem foldl_sbiStepD_eq_trace (len : Nat) (l : List Nat) :
    ∀ (s : List Nat) (ys : List ℚ),
      l.foldl (sbiStepD len) (s, ys) =
        ((l.foldl (sbiStepC len) (s, [])).1,
          applySwaps (l.foldl (sbiStepC len) (s, [])).2 ys) := by
  induction l with
  | nil => intro s ys; simp [applySwaps]
  | cons idx rest ih =>
    intro s ys
    simp only [List.foldl_cons]
    by_cases h : s.getD idx 0 ≠ idx
    · rcases hC : sbiLoopC (len + 1) s idx with ⟨s', tr⟩
      have e1 : sbiStepD len (s, ys) idx = (s', applySwaps tr ys) := by
        simp only [sbiStepD]; rw [if_pos h, sbiLoop_eq_trace, hC]
      have e2 : sbiStepC len (s, []) idx = (s', tr) := by
        simp only [sbiStepC]; rw [if_pos h, hC]; rw [List.nil_append]
      rw [e1, e2, ih s' (applySwaps tr ys), foldl_sbiStepC_acc len rest s' tr]
      simp [applySwaps, applySwaps_append]
    · have e1 : sbiStepD len (s, ys) idx = (s, ys) := by
        simp only [sbiStepD]; rw [if_neg h]
      have e2 : sbiStepC len (s, []) idx = (s, []) := by
        simp only [sbiStepC]; rw [if_neg h]
      rw [e1, e2]; exact ih s ys

theorem sort_by_indices_eq_trace (len : Nat) (indices : List Nat) (xs : List ℚ) :
    sort_by_indices len indices xs = applySwaps (sortTrace len indices) xs := by
  have : sort_by_indices len indices xs =
      ((List.range len).foldl (sbiStepD len) (indices, xs)).2 := rfl
  rw [this, sortTrace, foldl_sbiStepD_eq_trace]
/-- Unfolding of `create_distribution` at anchor stop `100`: the emitted
nine values are the rounded tweaks of the grid stops in *descending* order
(`900` first), with the raw `lightness` at grid position `100`. -/
theorem create_distribution_100 (mn mx l : ℚ) :
    create_distribution mn mx l 100 =
      [rustRound (tweakAt mn mx l 100 900),
       rustRound (tweakAt mn mx l 100 800),
       rustRound (tweakAt mn mx l 100 700),
       rustRound (tweakAt mn mx l 100 600),
       rustRound (tweakAt mn mx l 100 500),
       rustRound (tweakAt mn mx l 100 400),
       rustRound (tweakAt mn mx l 100 300),
       rustRound (tweakAt mn mx l 100 200),
       l] := by
  have hfilter : DISTRIBUTION_STOPS.filter (fun sv => !(sv == 0 || sv == 1000 || sv == 100)) =
      [50,200,300,400,500,600,700,800,900,950] := by decide
  have hidx : (argsortAsc ([0, 100, 1000] ++ [50,200,300,400,500,600,700,800,900,950])).reverse =
      [2, 12, 11, 10, 9, 8, 7, 6, 5, 4, 1, 3, 0] := by decide
  have htr : sortTrace 13 [2, 12, 11, 10, 9, 8, 7, 6, 5, 4, 1, 3, 0] =
      [(0, 2), (2, 11), (11, 3), (3, 10), (10, 1), (1, 12), (4, 9), (5, 8), (6, 7)] := by decide
  simp only [create_distribution]
  rw [hfilter, hidx]
  simp only [List.map_cons, List.map_nil, List.cons_append, List.nil_append,
    List.length_cons, List.length_nil]
  norm_num
  rw [sort_by_indices_eq_trace, htr]
  simp [applySwaps, listSwap]

/-- Unfolding of `create_distribution` at anchor stop `200`: the emitted
nine values are the rounded tweaks of the grid stops in *descending* order
(`900` first), with the raw `lightness` at grid position `200`. -/
theorem create_distribution_200 (mn mx l : ℚ) :
    create_distribution mn mx l 200 =
      [rustRound (tweakAt mn mx l 200 900),
       rustRound (tweakAt mn mx l 200 800),
       rustRound (tweakAt mn mx l 200 700),
       rustRound (tweakAt mn mx l 200 600),
       rustRound (tweakAt mn mx l 200 500),
       rustRound (tweakAt mn mx l 200 400),
       rustRound (tweakAt mn mx l 200 300),
       l,
       rustRound (tweakAt mn mx l 200 100)] := by
  have hfilter : DISTRIBUTION_STOPS.filter (fun sv => !(sv == 0 || sv == 1000 || sv == 200)) =
      [50,100,300,400,500,600,700,800,900,950] := by decide
  have hidx : (argsortAsc ([0, 200, 1000] ++ [50,100,300,400,500,600,700,800,900,950])).reverse =
      [2, 12, 11, 10, 9, 8, 7, 6, 5, 1, 4, 3, 0] := by decide
  have htr : sortTrace 13 [2, 12, 11, 10, 9, 8, 7, 6, 5, 1, 4, 3, 0] =
      [(0, 2), (2, 11), (11, 3), (3, 10), (10, 4), (4, 9), (9, 1), (1, 12), (5, 8), (6, 7)] := by decide
  simp only [create_distribution]
  rw [hfilter, hidx]
  simp only [List.map_cons, List.map_nil, List.cons_append, List.nil_append,
    List.length_cons, List.length_nil]
  norm_num
  rw [sort_by_indices_eq_trace, htr]
  simp [applySwaps, listSwap]

/-- Unfolding of `create_distribution` at anchor stop `300`: the emitted
nine values are the rounded tweaks of the grid stops in *descending* order
(`900` first), with the raw `lightness` at grid position `300`. -/
theorem create_distribution_300 (mn mx l : ℚ) :
    create_distribution mn mx l 300 =
      [rustRound (tweakAt mn mx l 300 900),
       rustRound (tweakAt mn mx l 300 800),
       rustRound (tweakAt mn mx l 300 700),
       rustRound (tweakAt mn mx l 300 600),
       rustRound (tweakAt mn mx l 300 500),
       rustRound (tweakAt mn mx l 300 400),
       l,
       rustRound (tweakAt mn mx l 300 200),
       rustRound (tweakAt mn mx l 300 100)] := by
  have hfilter : DISTRIBUTION_STOPS.filter (fun sv => !(sv == 0 || sv == 1000 || sv == 300)) =
      [50,100,200,400,500,600,700,800,900,950] := by decide
  have hidx : (argsortAsc ([0, 300, 1000] ++ [50,100,200,400,500,600,700,800,900,950])).reverse =
      [2, 12, 11, 10, 9, 8, 7, 6, 1, 5, 4, 3, 0] := by decide
  have htr : sortTrace 13 [2, 12, 11, 10, 9, 8, 7, 6, 1, 5, 4, 3, 0] =
      [(0, 2), (2, 11), (11, 3), (3, 10), (10, 4), (4, 9), (9, 5), (5, 8), (8, 1), (1, 12), (6, 7)] := by decide
  simp only [create_distribution]
  rw [hfilter, hidx]
  simp only [List.map_cons, List.map_nil, List.cons_append, List.nil_append,
    List.length_cons, List.length_nil]
  norm_num
  rw [sort_by_indices_eq_trace, htr]
  simp [applySwaps, listSwap]

/-- Unfolding of `create_distribution` at anchor stop `400`: the emitted
nine values are the rounded tweaks of the grid stops in *descending* order
(`900` first), with the raw `lightness` at grid position `400`. -/
theorem create_distribution_400 (mn mx l : ℚ) :
    create_distribution mn mx l 400 =
      [rustRound (tweakAt mn mx l 400 900),
       rustRound (tweakAt mn mx l 400 800),
       rustRound (tweakAt mn mx l 400 700),
       rustRound (tweakAt mn mx l 400 600),
       rustRound (tweakAt mn mx l 400 500),
       l,
       rustRound (tweakAt mn mx l 400 300),
       rustRound (tweakAt mn mx l 400 200),
       rustRound (tweakAt mn mx l 400 100)] := by
  have hfilter : DISTRIBUTION_STOPS.filter (fun sv => !(sv == 0 || sv == 1000 || sv == 400)) =
      [50,100,200,300,500,600,700,800,900,950] := by decide
  have hidx : (argsortAsc ([0, 400, 1000] ++ [50,100,200,300,500,600,700,800,900,950])).reverse =
      [2, 12, 11, 10, 9, 8, 7, 1, 6, 5, 4, 3, 0] := by decide
  have htr : sortTrace 13 [2, 12, 11, 10, 9, 8, 7, 1, 6, 5, 4, 3, 0] =
      [(0, 2), (2, 11), (11, 3), (3, 10), (10, 4), (4, 9), (9, 5), (5, 8), (8, 6), (6, 7), (7, 1), (1, 12)] := by decide
  simp only [create_distribution]
  rw [hfilter, hidx]
  simp only [List.map_cons, List.map_nil, List.cons_append, List.nil_append,
    List.length_cons, List.length_nil]
  norm_num
  rw [sort_by_indices_eq_trace, htr]
  simp [applySwaps, listSwap]

/-- Unfolding of `create_distribution` at anchor stop `500`: the emitted
nine values are the rounded tweaks of the grid stops in *descending* order
(`900` first), with the raw `lightness` at grid position `500`. -/
theorem create_distribution_500 (mn mx l : ℚ) :
    create_distribution mn mx l 500 =
      [rustRound (tweakAt mn mx l 500 900),
       rustRound (tweakAt mn mx l 500 800),
       rustRound (tweakAt mn mx l 500 700),
       rustRound (tweakAt mn mx l 500 600),
       l,
       rustRound (tweakAt mn mx l 500 400),
       rustRound (tweakAt mn mx l 500 300),
       rustRound (tweakAt mn mx l 500 200),
       rustRound (tweakAt mn mx l 500 100)] := by
  have hfilter : DISTRIBUTION_STOPS.filter (fun sv => !(sv == 0 || sv == 1000 || sv == 500)) =
      [50,100,200,300,400,600,700,800,900,950] := by decide
  have hidx : (argsortAsc ([0, 500, 1000] ++ [50,100,200,300,400,600,700,800,900,950])).reverse =
      [2, 12, 11, 10, 9, 8, 1, 7, 6, 5, 4, 3, 0] := by decide
  have htr : sortTrace 13 [2, 12, 11, 10, 9, 8, 1, 7, 6, 5, 4, 3, 0] =
      [(0, 2), (2, 11), (11, 3), (3, 10), (10, 4), (4, 9), (9, 5), (5, 8), (8, 6), (6, 1), (1, 12)] := by decide
  simp only [create_distribution]
  rw [hfilter, hidx]
  simp only [List.map_cons, List.map_nil, List.cons_append, List.nil_append,
    List.length_cons, List.length_nil]
  norm_num
  rw [sort_by_indices_eq_trace, htr]
  simp [applySwaps, listSwap]

/-- Unfolding of `create_distribution` at anchor stop `600`: the emitted
nine values are the rounded tweaks of the grid stops in *descending* order
(`900` first), with the raw `lightness` at grid position `600`. -/
theorem create_distribution_600 (mn mx l : ℚ) :
    create_distribution mn mx l 600 =
      [rustRound (tweakAt mn mx l 600 900),
       rustRound (tweakAt mn mx l 600 800),
       rustRound (tweakAt mn mx l 600 700),
       l,
       rustRound (tweakAt mn mx l 600 500),
       rustRound (tweakAt mn mx l 600 400),
       rustRound (tweakAt mn mx l 600 300),
       rustRound (tweakAt mn mx l 600 200),
       rustRound (tweakAt mn mx l 600 100)] := by
  have hfilter : DISTRIBUTION_STOPS.filter (fun sv => !(sv == 0 || sv == 1000 || sv == 600)) =
      [50,100,200,300,400,500,700,800,900,950] := by decide
  have hidx : (argsortAsc ([0, 600, 1000] ++ [50,100,200,300,400,500,700,800,900,950])).reverse =
      [2, 12, 11, 10, 9, 1, 8, 7, 6, 5, 4, 3, 0] := by decide
  have htr : sortTrace 13 [2, 12, 11, 10, 9, 1, 8, 7, 6, 5, 4, 3, 0] =
      [(0, 2), (2, 11), (11, 3), (3, 10), (10, 4), (4, 9), (9, 5), (5, 1), (1, 12), (6, 8)] := by decide
  simp only [create_distribution]
  rw [hfilter, hidx]
  simp only [List.map_cons, List.map_nil, List.cons_append, List.nil_append,
    List.length_cons, List.length_nil]
  norm_num
  rw [sort_by_indices_eq_trace, htr]
  simp [applySwaps, listSwap]

/-- Unfolding of `create_distribution` at anchor stop `700`: the emitted
nine values are the rounded tweaks of the grid stops in *descending* order
(`900` first), with the raw `lightness` at grid position `700`. -/
theorem create_distribution_700 (mn mx l : ℚ) :
    create_distribution mn mx l 700 =
      [rustRound (tweakAt mn mx l 700 900),
       rustRound (tweakAt mn mx l 700 800),
       l,
       rustRound (tweakAt mn mx l 700 600),
       rustRound (tweakAt mn mx l 700 500),
       rustRound (tweakAt mn mx l 700 400),
       rustRound (tweakAt mn mx l 700 300),
       rustRound (tweakAt mn mx l 700 200),
       rustRound (tweakAt mn mx l 700 100)] := by
  have hfilter : DISTRIBUTION_STOPS.filter (fun sv => !(sv == 0 || sv == 1000 || sv == 700)) =
      [50,100,200,300,400,500,600,800,900,950] := by decide
  have hidx : (argsortAsc ([0, 700, 1000] ++ [50,100,200,300,400,500,600,800,900,950])).reverse =
      [2, 12, 11, 10, 1, 9, 8, 7, 6, 5, 4, 3, 0] := by decide
  have htr : sortTrace 13 [2, 12, 11, 10, 1, 9, 8, 7, 6, 5, 4, 3, 0] =
      [(0, 2), (2, 11), (11, 3), (3, 10), (10, 4), (4, 1), (1, 12), (5, 9), (6, 8)] := by decide
  simp only [create_distribution]
  rw [hfilter, hidx]
  simp only [List.map_cons, List.map_nil, List.cons_append, List.nil_append,
    List.length_cons, List.length_nil]
  norm_num
  rw [sort_by_indices_eq_trace, htr]
  simp [applySwaps, listSwap]

/-- Unfolding of `create_distribution` at anchor stop `800`: the emitted
nine values are the rounded tweaks of the grid stops in *descending* order
(`900` first), with the raw `lightness` at grid position `800`. -/
theorem create_distribution_800 (mn mx l : ℚ) :
    create_distribution mn mx l 800 =
      [rustRound (tweakAt mn mx l 800 900),
       l,
       rustRound (tweakAt mn mx l 800 700),
       rustRound (tweakAt mn mx l 800 600),
       rustRound (tweakAt mn mx l 800 500),
       rustRound (tweakAt mn mx l 800 400),
       rustRound (tweakAt mn mx l 800 300),
       rustRound (tweakAt mn mx l 800 200),
       rustRound (tweakAt mn mx l 800 100)] := by
  have hfilter : DISTRIBUTION_STOPS.filter (fun sv => !(sv == 0 || sv == 1000 || sv == 800)) =
      [50,100,200,300,400,500,600,700,900,950] := by decide
  have hidx : (argsortAsc ([0, 800, 1000] ++ [50,100,200,300,400,500,600,700,900,950])).reverse =
      [2, 12, 11, 1, 10, 9, 8, 7, 6, 5, 4, 3, 0] := by decide
  have htr : sortTrace 13 [2, 12, 11, 1, 10, 9, 8, 7, 6, 5, 4, 3, 0] =
      [(0, 2), (2, 11), (11, 3), (3, 1), (1, 12), (4, 10), (5, 9), (6, 8)] := by decide
  simp only [create_distribution]
  rw [hfilter, hidx]
  simp only [List.map_cons, List.map_nil, List.cons_append, List.nil_append,
    List.length_cons, List.length_nil]
  norm_num
  rw [sort_by_indices_eq_trace, htr]
  simp [applySwaps, listSwap]

/-- Unfolding of `create_distribution` at anchor stop `900`: the emitted
nine values are the rounded tweaks of the grid stops in *descending* order
(`900` first), with the raw `lightness` at grid position `900`. -/
theorem create_distribution_900 (mn mx l : ℚ) :
    create_distribution mn mx l 900 =
      [l,
       rustRound (tweakAt mn mx l 900 800),
       rustRound (tweakAt mn mx l 900 700),
       rustRound (tweakAt mn mx l 900 600),
       rustRound (tweakAt mn mx l 900 500),
       rustRound (tweakAt mn mx l 900 400),
       rustRound (tweakAt mn mx l 900 300),
       rustRound (tweakAt mn mx l 900 200),
       rustRound (tweakAt mn mx l 900 100)] := by
  have hfilter : DISTRIBUTION_STOPS.filter (fun sv => !(sv == 0 || sv == 1000 || sv == 900)) =
      [50,100,200,300,400,500,600,700,800,950] := by decide
  have hidx : (argsortAsc ([0, 900, 1000] ++ [50,100,200,300,400,500,600,700,800,950])).reverse =
      [2, 12, 1, 11, 10, 9, 8, 7, 6, 5, 4, 3, 0] := by decide
  have htr : sortTrace 13 [2, 12, 1, 11, 10, 9, 8, 7, 6, 5, 4, 3, 0] =
      [(0, 2), (2, 1), (1, 12), (3, 11), (4, 10), (5, 9), (6, 8)] := by decide
  simp only [create_distribution]
  rw [hfilter, hidx]
  simp only [List.map_cons, List.map_nil, List.cons_append, List.nil_append,
    List.length_cons, List.length_nil]
  norm_num
  rw [sort_by_indices_eq_trace, htr]
  simp [applySwaps, listSwap]

/-! ## Colors, tints, palette -/

/-- `BaseColor` of the source (one color request). -/
structure BaseColor where
  name  : Str
  value : Str
  stop  : Nat
  l_min : Nat
  l_max : Nat
  deriving DecidableEq, Repr

/-- `Color` of the source: one persisted tint.  The `Uuid` identity is
modelled as a `Nat` token (the spec only requires tokens to be comparable
and freshly mintable). -/
structure Color where
  id      : Nat
  version : Nat
  name    : Str
  value   : Str
  deriving DecidableEq, Repr

/-- `ColorTints` of the source: one named group of tints. -/
structure ColorTints where
  name  : Str
  tints : List Color
  deriving DecidableEq, Repr

/-- `ColorPalette` of the source. -/
structure ColorPalette where
  colors : List ColorTints
  deriving DecidableEq, Repr

/-- Loop of `create_tints` over `STOPS.iter().enumerate()`: Rust's
`distribution[i]` panics when out of bounds, modelled by `indexPanic`; the
freshly minted `Uuid::new_v4()` of tint `i` is modelled as `idBase + i`. -/
def tintsLoop (group selfName : Str) (h s : ℚ) (distribution : List ℚ) (idBase : Nat) :
    List (Nat × Nat) → Except Err (List Color)
  | [] => .ok []
  | (i, stop) :: rest =>
    match distribution.get? i with
    | none => .error .indexPanic
    | some di =>
      let new_h := rustRemEuclid h 360
      let new_s := clampQ s 0 100
      let new_l := clampQ di 0 100
      let new_hex := hsl_to_hex new_h new_s new_l
      let color : Color :=
        { id := idBase + i, version := 1,
          name := group ++ " / ".data ++ selfName ++ " / ".data ++
            selfName ++ ".".data ++ (Nat.repr stop).data,
          value := new_hex }
      match tintsLoop group selfName h s distribution idBase rest with
      | .error e => .error e
      | .ok colors => .ok (color :: colors)

/-- `BaseColor::create_tints` of the source.  Note the argument order of the
`create_distribution` call: `(max, min, l, stop)` against the declared
parameters `(min, max, lightness, stop)` — exactly as in the source. -/
def create_tints (self : BaseColor) (group : Str) (idBase : Nat) : Except Err ColorTints :=
  match hex_to_hsl self.value with
  | .error e => .error e
  | .ok (h, s, l) =>
    let max : ℚ := (self.l_max : ℚ)
    let min : ℚ := (self.l_min : ℚ)
    let distribution := create_distribution max min l self.stop
    match tintsLoop group self.name h s distribution idBase STOPS.enum with
    | .error e => .error e
    | .ok tints => .ok { name := self.name, tints := tints }

/-- Rust's `str::split(sep)`: always at least one (possibly empty) segment. -/
def splitChar (sep : Char) : Str → List Str
  | [] => [[]]
  | c :: rest =>
    match splitChar sep rest with
    | [] => [[]]
    | seg :: segs => if c = sep then [] :: seg :: segs else (c :: seg) :: segs

/-- `parse_base_color` of the source: `<name>:<hex>[:<stop>]`, where both the
hex value and the (optional) stop are parsed with `from_str_radix(_, 16)` —
the stop too, in hexadecimal.  No stop-set membership check is performed.
The `Err(String)` messages are collapsed into `Err.cliParse`. -/
def parse_base_color (s : Str) : Except Err BaseColor :=
  let segs := splitChar ':' s
  match segs.get? 0, segs.get? 1, segs.get? 2 with
  | some name, some value, none =>
    match from_str_radix16 value with
    | .error _ => .error .cliParse
    | .ok _ => .ok { name := name, value := value, stop := 500, l_min := 0, l_max := 100 }
  | some name, some value, some stop =>
    match from_str_radix16 value with
    | .error _ => .error .cliParse
    | .ok _ =>
      match from_str_radix16 stop with
      | .error _ => .error .cliParse
      | .ok st => .ok { name := name, value := value, stop := st, l_min := 0, l_max := 100 }
  | _, _, _ => .error .cliParse

/-- Replace the element at one position of a list. -/
def listModify {α : Type} : List α → Nat → (α → α) → List α
  | [], _, _ => []
  | x :: rest, 0, f => f x :: rest
  | x :: rest, i + 1, f => x :: listModify rest i f

/-- `ColorPalette::find_or_insert` of the source: index of the first group
with the given name, appending an empty group when missing. -/
def find_or_insert (p : ColorPalette) (name : Str) : ColorPalette × Nat :=
  match p.colors.findIdx? (fun t => t.name == name) with
  | some i => (p, i)
  | none => (⟨p.colors ++ [{ name := name, tints := [] }]⟩, p.colors.length)

/-- Rust `str::trim` (ASCII whitespace suffices for the names at hand). -/
def strTrim (s : Str) : Str :=
  ((s.dropWhile (fun c => c == ' ' || c == '\t' || c == '\n' || c == '\r')).reverse.dropWhile
    (fun c => c == ' ' || c == '\t' || c == '\n' || c == '\r')).reverse

/-- `LunacyDocument::parse_color_palette` of the source: keep only entries
whose name starts with `"<group> / "`, group them by the first
`/`-separated segment after that prefix, trimmed. -/
def parse_color_palette (colorVariables : List Color) (group : Str) : ColorPalette :=
  let pfx := group ++ " / ".data
  colorVariables.foldl (fun palette color =>
    if pfx.isPrefixOf color.name then
      let colorName := strTrim ((color.name.drop pfx.length).takeWhile (fun c => c != '/'))
      let pi := find_or_insert palette colorName
      ⟨listModify pi.1.colors pi.2 (fun t => { t with tints := t.tints ++ [color] })⟩
    else palette) ⟨[]⟩

/-- `new.name.split('/').last().unwrap()` of `update_by_name`. -/
def lastSegment (s : Str) : Str := (splitChar '/' s).getLastD []

/-- The match test of `update_by_name`:
`old.name.ends_with(new.name.split('/').last().unwrap())`. -/
def matchesB (old new : Color) : Bool := (lastSegment new.name).isSuffixOf old.name

/-- One drain step of `ColorTints::update_by_name`: update the first
name-matching entry in place (id kept, version bumped, value overwritten),
or push the new color at the end. -/
def ubnStep : List Color → Color → List Color
  | [], new => [new]
  | old :: rest, new =>
    if matchesB old new then
      { old with version := old.version + 1, value := new.value } :: rest
    else old :: ubnStep rest new

/-- `ColorTints::update_by_name` of the source: drain `other` in order,
merging each color into `self` by name. -/
def update_by_name (self other : ColorTints) : ColorTints :=
  { self with tints := other.tints.foldl ubnStep self.tints }

/-- The removal loop of `apply_color_palette` for one prefix: `remove(i)`
under a scan is retention of the non-matching entries in order. -/
def removeMatching (colorVariables : List Color) (pfx : Str) : List Color :=
  colorVariables.filter (fun cv => !(pfx.isPrefixOf cv.name))

/-- `LunacyDocument::apply_color_palette` of the source: for every group of
the palette remove the entries whose name starts with
`"<group> / <name>"`, then append every group's tints at the end. -/
def apply_color_palette (colorVariables : List Color) (palette : ColorPalette)
    (group : Str) : List Color :=
  let removed := palette.colors.foldl (fun cvs color =>
    removeMatching cvs (group ++ " / ".data ++ color.name)) colorVariables
  removed ++ palette.colors.foldl (fun acc color => acc ++ color.tints) []

/-- Per-request loop of `update_colors`: generate the tints, find or insert
the group, merge by name.  The id counter advances past the minted ids. -/
def schemeLoop (group : Str) : ColorPalette → List BaseColor → Nat → Except Err ColorPalette
  | palette, [], _ => .ok palette
  | palette, base :: rest, idBase =>
    match create_tints base group idBase with
    | .error e => .error e
    | .ok new_tints =>
      let pi := find_or_insert palette base.name
      let palette := ColorPalette.mk
        (listModify pi.1.colors pi.2 (fun t => update_by_name t new_tints))
      schemeLoop group palette rest (idBase + new_tints.tints.length)

/-- `LunacyDocument::update_colors` of the source, on the already-decoded
`colorVariables` list: load the palette, apply every base color, write the
palette back. -/
def update_colors (colorVariables : List Color) (group : Str) (scheme : List BaseColor)
    (idBase : Nat) : Except Err (List Color) :=
  let palette := parse_color_palette colorVariables group
  match schemeLoop group palette scheme idBase with
  | .error e => .error e
  | .ok palette => .ok (apply_color_palette colorVariables palette group)

/-- The redistribution formula exactly as the specification words it
(§4.2); this is the reference definition claim C2 compares the code
against, *not* a translation of the source: boundary targets
`0 ↦ lightness_max` and `1000 ↦ lightness_min`, a tweak interpolated from
the seed lightness toward the nearer boundary with per-step fraction
`|p - anchor| / 100` divided by the grid-index distance from the anchor to
that boundary minus one, rounded to the nearest integer. -/
def spec_redistribution (l_min l_max l : ℚ) (anchor p : Nat) : ℚ :=
  if p < anchor then
    rustRound (l + (l_max - l) * ((((anchor : ℚ) - (p : ℚ)) / 100) /
      (index_of anchor - index_of 0 - 1)))
  else
    rustRound (l - (l - l_min) * ((((p : ℚ) - (anchor : ℚ)) / 100) /
      (index_of 1000 - index_of anchor - 1)))

/-! ## Arithmetic facts about `rustRound` -/

theorem rustRound_mono {x y : ℚ} (h : x ≤ y) : rustRound x ≤ rustRound y := by
  unfold rustRound
  by_cases hx : x < 0 <;> by_cases hy : y < 0 <;>
    simp only [if_pos, if_neg, hx, hy, if_true, if_false]
  · have : (-y + 1/2 : ℚ) ≤ -x + 1/2 := by linarith
    have := Int.floor_le_floor this
    exact neg_le_neg (by exact_mod_cast this)
  · have h1 : (0 : ℤ) ≤ ⌊(-x + 1/2 : ℚ)⌋ := Int.floor_nonneg.mpr (by linarith)
    have h2 : (0 : ℤ) ≤ ⌊(y + 1/2 : ℚ)⌋ := Int.floor_nonneg.mpr (by linarith)
    have h1' : (0 : ℚ) ≤ (⌊(-x + 1/2 : ℚ)⌋ : ℚ) := by exact_mod_cast h1
    have h2' : (0 : ℚ) ≤ (⌊(y + 1/2 : ℚ)⌋ : ℚ) := by exact_mod_cast h2
    linarith
  · exact absurd h (by push_neg; exact lt_of_lt_of_le hy (not_lt.mp hx))
  · have : (x + 1/2 : ℚ) ≤ y + 1/2 := by linarith
    exact_mod_cast Int.floor_le_floor this

theorem rustRound_le_add_half (x : ℚ) : rustRound x ≤ x + 1/2 := by
  unfold rustRound
  by_cases hx : x < 0 <;> simp only [if_pos, if_neg, hx, if_true, if_false]
  · have : (-x + 1/2 : ℚ) - 1 < (⌊(-x + 1/2 : ℚ)⌋ : ℚ) := Int.sub_one_lt_floor _
    linarith
  · have : (⌊(x + 1/2 : ℚ)⌋ : ℚ) ≤ x + 1/2 := Int.floor_le _
    linarith

theorem sub_half_le_rustRound (x : ℚ) : x - 1/2 ≤ rustRound x := by
  unfold rustRound
  by_cases hx : x < 0 <;> simp only [if_pos, if_neg, hx, if_true, if_false]
  · have : (⌊(-x + 1/2 : ℚ)⌋ : ℚ) ≤ -x + 1/2 := Int.floor_le _
    linarith
  · have : (x + 1/2 : ℚ) - 1 < (⌊(x + 1/2 : ℚ)⌋ : ℚ) := Int.sub_one_lt_floor _
    linarith

theorem roundPairLe {x y : ℚ} (h : y ≤ x) : rustRound y ≤ rustRound x + 1/2 := by
  have := rustRound_mono h
  linarith

theorem roundPairAnchorL {l x : ℚ} (h : l ≤ x) : l ≤ rustRound x + 1/2 := by
  have := sub_half_le_rustRound x
  linarith

theorem roundPairAnchorR {l y : ℚ} (h : y ≤ l) : rustRound y ≤ l + 1/2 := by
  have := rustRound_le_add_half y
  linarith

theorem index_of_0 : index_of 0 = 0 := rfl
theorem index_of_50 : index_of 50 = 1 := rfl
theorem index_of_100 : index_of 100 = 2 := rfl
theorem index_of_200 : index_of 200 = 3 := rfl
theorem index_of_300 : index_of 300 = 4 := rfl
theorem index_of_400 : index_of 400 = 5 := rfl
theorem index_of_500 : index_of 500 = 6 := rfl
theorem index_of_600 : index_of 600 = 7 := rfl
theorem index_of_700 : index_of 700 = 8 := rfl
theorem index_of_800 : index_of 800 = 9 := rfl
theorem index_of_900 : index_of 900 = 10 := rfl
theorem index_of_950 : index_of 950 = 11 := rfl
theorem index_of_1000 : index_of 1000 = 12 := rfl

set_option maxHeartbeats 3000000 in
/-- C3 (amended, universal part plus the worked example): for every seed
lightness `0 < l < 100` and every canonical anchor, the nine lightness
values of `create_distribution` (as called by `create_tints` with
`l_min = 0`, `l_max = 100`) are weakly decreasing from stop 100 toward stop
900 up to less than one half lightness unit per step, and exactly weakly
decreasing once the anchor's slot (which holds the unrounded seed
lightness) is removed; for the seed `#00fbb0` at anchor 500 the emitted
lightness at stop 100 strictly exceeds the one at stop 500, which strictly
exceeds the one at stop 900. -/
theorem c3_theorem (l : ℚ) (a : Nat) (ha : a ∈ STOPS) (h0 : 0 < l) (h1 : l < 100) :
    (List.Chain' (fun x y => y ≤ x + 1/2) (create_distribution 100 0 l a) ∧
      List.Chain' (fun x y => y ≤ x)
        ((create_distribution 100 0 l a).eraseIdx ((900 - a) / 100))) ∧
    (hex_to_hsl "#00fbb0".data = .ok (162, 100, 2510/51) ∧
      (create_distribution 100 0 (2510/51) 500).getD 4 0 <
        (create_distribution 100 0 (2510/51) 500).getD 0 0 ∧
      (create_distribution 100 0 (2510/51) 500).getD 8 0 <
        (create_distribution 100 0 (2510/51) 500).getD 4 0) := by
  have h0' : 0 ≤ l := le_of_lt h0
  have h1' : l ≤ 100 := le_of_lt h1
  refine ⟨?_, by decide, by decide, by decide⟩
  simp only [STOPS, List.mem_cons, List.not_mem_nil, or_false] at ha
  rcases ha with hae | hae | hae | hae | hae | hae | hae | hae | hae
  · -- anchor 100
    subst hae
    constructor
    · rw [create_distribution_100]
      simp only [List.chain'_cons, List.chain'_singleton, and_true]
      refine ⟨?_, ?_, ?_, ?_, ?_, ?_, ?_, ?_⟩
      · exact roundPairLe (by
              simp only [tweakAt, index_of_100, index_of_0, index_of_1000]
              norm_num
              try linarith)
      · exact roundPairLe (by
              simp only [tweakAt, index_of_100, index_of_0, index_of_1000]
              norm_num
              try linarith)
      · exact roundPairLe (by
              simp only [tweakAt, index_of_100, index_of_0, index_of_1000]
              norm_num
              try linarith)
      · exact roundPairLe (by
              simp only [tweakAt, index_of_100, index_of_0, index_of_1000]
              norm_num
              try linarith)
      · exact roundPairLe (by
              simp only [tweakAt, index_of_100, index_of_0, index_of_1000]
              norm_num
              try linarith)
      · exact roundPairLe (by
              simp only [tweakAt, index_of_100, index_of_0, index_of_1000]
              norm_num
              try linarith)
      · exact roundPairLe (by
              simp only [tweakAt, index_of_100, index_of_0, index_of_1000]
              norm_num
              try linarith)
      · exact roundPairAnchorL (by
              simp only [tweakAt, index_of_100, index_of_0, index_of_1000]
              norm_num
              try linarith)
    · rw [create_distribution_100]
      have he :
          ([rustRound (tweakAt 100 0 l 100 900), rustRound (tweakAt 100 0 l 100 800), rustRound (tweakAt 100 0 l 100 700), rustRound (tweakAt 100 0 l 100 600), rustRound (tweakAt 100 0 l 100 500), rustRound (tweakAt 100 0 l 100 400), rustRound (tweakAt 100 0 l 100 300), rustRound (tweakAt 100 0 l 100 200), l].eraseIdx 8 : List ℚ) =
          [rustRound (tweakAt 100 0 l 100 900),
          rustRound (tweakAt 100 0 l 100 800),
          rustRound (tweakAt 100 0 l 100 700),
          rustRound (tweakAt 100 0 l 100 600),
          rustRound (tweakAt 100 0 l 100 500),
          rustRound (tweakAt 100 0 l 100 400),
          rustRound (tweakAt 100 0 l 100 300),
          rustRound (tweakAt 100 0 l 100 200)] := rfl
      rw [show ((900 - 100) / 100 : Nat) = 8 from rfl, he]
      simp only [List.chain'_cons, List.chain'_singleton, and_true]
      refine ⟨?_, ?_, ?_, ?_, ?_, ?_, ?_⟩
      · exact rustRound_mono (by
              simp only [tweakAt, index_of_100, index_of_0, index_of_1000]
              norm_num
              try linarith)
      · exact rustRound_mono (by
              simp only [tweakAt, index_of_100, index_of_0, index_of_1000]
              norm_num
              try linarith)
      · exact rustRound_mono (by
              simp only [tweakAt, index_of_100, index_of_0, index_of_1000]
              norm_num
              try linarith)
      · exact rustRound_mono (by
              simp only [tweakAt, index_of_100, index_of_0, index_of_1000]
              norm_num
              try linarith)
      · exact rustRound_mono (by
              simp only [tweakAt, index_of_100, index_of_0, index_of_1000]
              norm_num
              try linarith)
      · exact rustRound_mono (by
              simp only [tweakAt, index_of_100, index_of_0, index_of_1000]
              norm_num
              try linarith)
      · exact rustRound_mono (by
              simp only [tweakAt, index_of_100, index_of_0, index_of_1000]
              norm_num
              try linarith)
  · -- anchor 200
    subst hae
    constructor
    · rw [create_distribution_200]
      simp only [List.chain'_cons, List.chain'_singleton, and_true]
      refine ⟨?_, ?_, ?_, ?_, ?_, ?_, ?_, ?_⟩
      · exact roundPairLe (by
              simp only [tweakAt, index_of_200, index_of_0, index_of_1000]
              norm_num
              try linarith)
      · exact roundPairLe (by
              simp only [tweakAt, index_of_200, index_of_0, index_of_1000]
              norm_num
              try linarith)
      · exact roundPairLe (by
              simp only [tweakAt, index_of_200, index_of_0, index_of_1000]
              norm_num
              try linarith)
      · exact roundPairLe (by
              simp only [tweakAt, index_of_200, index_of_0, index_of_1000]
              norm_num
              try linarith)
      · exact roundPairLe (by
              simp only [tweakAt, index_of_200, index_of_0, index_of_1000]
              norm_num
              try linarith)
      · exact roundPairLe (by
              simp only [tweakAt, index_of_200, index_of_0, index_of_1000]
              norm_num
              try linarith)
      · exact roundPairAnchorL (by
              simp only [tweakAt, index_of_200, index_of_0, index_of_1000]
              norm_num
              try linarith)
      · exact roundPairAnchorR (by
              simp only [tweakAt, index_of_200, index_of_0, index_of_1000]
              norm_num
              try linarith)
    · rw [create_distribution_200]
      have he :
          ([rustRound (tweakAt 100 0 l 200 900), rustRound (tweakAt 100 0 l 200 800), rustRound (tweakAt 100 0 l 200 700), rustRound (tweakAt 100 0 l 200 600), rustRound (tweakAt 100 0 l 200 500), rustRound (tweakAt 100 0 l 200 400), rustRound (tweakAt 100 0 l 200 300), l, rustRound (tweakAt 100 0 l 200 100)].eraseIdx 7 : List ℚ) =
          [rustRound (tweakAt 100 0 l 200 900),
          rustRound (tweakAt 100 0 l 200 800),
          rustRound (tweakAt 100 0 l 200 700),
          rustRound (tweakAt 100 0 l 200 600),
          rustRound (tweakAt 100 0 l 200 500),
          rustRound (tweakAt 100 0 l 200 400),
          rustRound (tweakAt 100 0 l 200 300),
          rustRound (tweakAt 100 0 l 200 100)] := rfl
      rw [show ((900 - 200) / 100 : Nat) = 7 from rfl, he]
      simp only [List.chain'_cons, List.chain'_singleton, and_true]
      refine ⟨?_, ?_, ?_, ?_, ?_, ?_, ?_⟩
      · exact rustRound_mono (by
              simp only [tweakAt, index_of_200, index_of_0, index_of_1000]
              norm_num
              try linarith)
      · exact rustRound_mono (by
              simp only [tweakAt, index_of_200, index_of_0, index_of_1000]
              norm_num
              try linarith)
      · exact rustRound_mono (by
              simp only [tweakAt, index_of_200, index_of_0, index_of_1000]
              norm_num
              try linarith)
      · exact rustRound_mono (by
              simp only [tweakAt, index_of_200, index_of_0, index_of_1000]
              norm_num
              try linarith)
      · exact rustRound_mono (by
              simp only [tweakAt, index_of_200, index_of_0, index_of_1000]
              norm_num
              try linarith)
      · exact rustRound_mono (by
              simp only [tweakAt, index_of_200, index_of_0, index_of_1000]
              norm_num
              try linarith)
      · exact rustRound_mono (by
              simp only [tweakAt, index_of_200, index_of_0, index_of_1000]
              norm_num
              try linarith)
  · -- anchor 300
    subst hae
    constructor
    · rw [create_distribution_300]
      simp only [List.chain'_cons, List.chain'_singleton, and_true]
      refine ⟨?_, ?_, ?_, ?_, ?_, ?_, ?_, ?_⟩
      · exact roundPairLe (by
              simp only [tweakAt, index_of_300, index_of_0, index_of_1000]
              norm_num
              try linarith)
      · exact roundPairLe (by
              simp only [tweakAt, index_of_300, index_of_0, index_of_1000]
              norm_num
              try linarith)
      · exact roundPairLe (by
              simp only [tweakAt, index_of_300, index_of_0, index_of_1000]
              norm_num
              try linarith)
      · exact roundPairLe (by
              simp only [tweakAt, index_of_300, index_of_0, index_of_1000]
              norm_num
              try linarith)
      · exact roundPairLe (by
              simp only [tweakAt, index_of_300, index_of_0, index_of_1000]
              norm_num
              try linarith)
      · exact roundPairAnchorL (by
              simp only [tweakAt, index_of_300, index_of_0, index_of_1000]
              norm_num
              try linarith)
      · exact roundPairAnchorR (by
              simp only [tweakAt, index_of_300, index_of_0, index_of_1000]
              norm_num
              try linarith)
      · exact roundPairLe (by
              simp only [tweakAt, index_of_300, index_of_0, index_of_1000]
              norm_num
              try linarith)
    · rw [create_distribution_300]
      have he :
          ([rustRound (tweakAt 100 0 l 300 900), rustRound (tweakAt 100 0 l 300 800), rustRound (tweakAt 100 0 l 300 700), rustRound (tweakAt 100 0 l 300 600), rustRound (tweakAt 100 0 l 300 500), rustRound (tweakAt 100 0 l 300 400), l, rustRound (tweakAt 100 0 l 300 200), rustRound (tweakAt 100 0 l 300 100)].eraseIdx 6 : List ℚ) =
          [rustRound (tweakAt 100 0 l 300 900),
          rustRound (tweakAt 100 0 l 300 800),
          rustRound (tweakAt 100 0 l 300 700),
          rustRound (tweakAt 100 0 l 300 600),
          rustRound (tweakAt 100 0 l 300 500),
          rustRound (tweakAt 100 0 l 300 400),
          rustRound (tweakAt 100 0 l 300 200),
          rustRound (tweakAt 100 0 l 300 100)] := rfl
      rw [show ((900 - 300) / 100 : Nat) = 6 from rfl, he]
      simp only [List.chain'_cons, List.chain'_singleton, and_true]
      refine ⟨?_, ?_, ?_, ?_, ?_, ?_, ?_⟩
      · exact rustRound_mono (by
              simp only [tweakAt, index_of_300, index_of_0, index_of_1000]
              norm_num
              try linarith)
      · exact rustRound_mono (by
              simp only [tweakAt, index_of_300, index_of_0, index_of_1000]
              norm_num
              try linarith)
      · exact rustRound_mono (by
              simp only [tweakAt, index_of_300, index_of_0, index_of_1000]
              norm_num
              try linarith)
      · exact rustRound_mono (by
              simp only [tweakAt, index_of_300, index_of_0, index_of_1000]
              norm_num
              try linarith)
      · exact rustRound_mono (by
              simp only [tweakAt, index_of_300, index_of_0, index_of_1000]
              norm_num
              try linarith)
      · exact rustRound_mono (by
              simp only [tweakAt, index_of_300, index_of_0, index_of_1000]
              norm_num
              try linarith)
      · exact rustRound_mono (by
              simp only [tweakAt, index_of_300, index_of_0, index_of_1000]
              norm_num
              try linarith)
  · -- anchor 400
    subst hae
    constructor
    · rw [create_distribution_400]
      simp only [List.chain'_cons, List.chain'_singleton, and_true]
      refine ⟨?_, ?_, ?_, ?_, ?_, ?_, ?_, ?_⟩
      · exact roundPairLe (by
              simp only [tweakAt, index_of_400, index_of_0, index_of_1000]
              norm_num
              try linarith)
      · exact roundPairLe (by
              simp only [tweakAt, index_of_400, index_of_0, index_of_1000]
              norm_num
              try linarith)
      · exact roundPairLe (by
              simp only [tweakAt, index_of_400, index_of_0, index_of_1000]
              norm_num
              try linarith)
      · exact roundPairLe (by
              simp only [tweakAt, index_of_400, index_of_0, index_of_1000]
              norm_num
              try linarith)
      · exact roundPairAnchorL (by
              simp only [tweakAt, index_of_400, index_of_0, index_of_1000]
              norm_num
              try linarith)
      · exact roundPairAnchorR (by
              simp only [tweakAt, index_of_400, index_of_0, index_of_1000]
              norm_num
              try linarith)
      · exact roundPairLe (by
              simp only [tweakAt, index_of_400, index_of_0, index_of_1000]
              norm_num
              try linarith)
      · exact roundPairLe (by
              simp only [tweakAt, index_of_400, index_of_0, index_of_1000]
              norm_num
              try linarith)
    · rw [create_distribution_400]
      have he :
          ([rustRound (tweakAt 100 0 l 400 900), rustRound (tweakAt 100 0 l 400 800), rustRound (tweakAt 100 0 l 400 700), rustRound (tweakAt 100 0 l 400 600), rustRound (tweakAt 100 0 l 400 500), l, rustRound (tweakAt 100 0 l 400 300), rustRound (tweakAt 100 0 l 400 200), rustRound (tweakAt 100 0 l 400 100)].eraseIdx 5 : List ℚ) =
          [rustRound (tweakAt 100 0 l 400 900),
          rustRound (tweakAt 100 0 l 400 800),
          rustRound (tweakAt 100 0 l 400 700),
          rustRound (tweakAt 100 0 l 400 600),
          rustRound (tweakAt 100 0 l 400 500),
          rustRound (tweakAt 100 0 l 400 300),
          rustRound (tweakAt 100 0 l 400 200),
          rustRound (tweakAt 100 0 l 400 100)] := rfl
      rw [show ((900 - 400) / 100 : Nat) = 5 from rfl, he]
      simp only [List.chain'_cons, List.chain'_singleton, and_true]
      refine ⟨?_, ?_, ?_, ?_, ?_, ?_, ?_⟩
      · exact rustRound_mono (by
              simp only [tweakAt, index_of_400, index_of_0, index_of_1000]
              norm_num
              try linarith)
      · exact rustRound_mono (by
              simp only [tweakAt, index_of_400, index_of_0, index_of_1000]
              norm_num
              try linarith)
      · exact rustRound_mono (by
              simp only [tweakAt, index_of_400, index_of_0, index_of_1000]
              norm_num
              try linarith)
      · exact rustRound_mono (by
              simp only [tweakAt, index_of_400, index_of_0, index_of_1000]
              norm_num
              try linarith)
      · exact rustRound_mono (by
              simp only [tweakAt, index_of_400, index_of_0, index_of_1000]
              norm_num
              try linarith)
      · exact rustRound_mono (by
              simp only [tweakAt, index_of_400, index_of_0, index_of_1000]
              norm_num
              try linarith)
      · exact rustRound_mono (by
              simp only [tweakAt, index_of_400, index_of_0, index_of_1000]
              norm_num
              try linarith)
  · -- anchor 500
    subst hae
    constructor
    · rw [create_distribution_500]
      simp only [List.chain'_cons, List.chain'_singleton, and_true]
      refine ⟨?_, ?_, ?_, ?_, ?_, ?_, ?_, ?_⟩
      · exact roundPairLe (by
              simp only [tweakAt, index_of_500, index_of_0, index_of_1000]
              norm_num
              try linarith)
      · exact roundPairLe (by
              simp only [tweakAt, index_of_500, index_of_0, index_of_1000]
              norm_num
              try linarith)
      · exact roundPairLe (by
              simp only [tweakAt, index_of_500, index_of_0, index_of_1000]
              norm_num
              try linarith)
      · exact roundPairAnchorL (by
              simp only [tweakAt, index_of_500, index_of_0, index_of_1000]
              norm_num
              try linarith)
      · exact roundPairAnchorR (by
              simp only [tweakAt, index_of_500, index_of_0, index_of_1000]
              norm_num
              try linarith)
      · exact roundPairLe (by
              simp only [tweakAt, index_of_500, index_of_0, index_of_1000]
              norm_num
              try linarith)
      · exact roundPairLe (by
              simp only [tweakAt, index_of_500, index_of_0, index_of_1000]
              norm_num
              try linarith)
      · exact roundPairLe (by
              simp only [tweakAt, index_of_500, index_of_0, index_of_1000]
              norm_num
              try linarith)
    · rw [create_distribution_500]
      have he :
          ([rustRound (tweakAt 100 0 l 500 900), rustRound (tweakAt 100 0 l 500 800), rustRound (tweakAt 100 0 l 500 700), rustRound (tweakAt 100 0 l 500 600), l, rustRound (tweakAt 100 0 l 500 400), rustRound (tweakAt 100 0 l 500 300), rustRound (tweakAt 100 0 l 500 200), rustRound (tweakAt 100 0 l 500 100)].eraseIdx 4 : List ℚ) =
          [rustRound (tweakAt 100 0 l 500 900),
          rustRound (tweakAt 100 0 l 500 800),
          rustRound (tweakAt 100 0 l 500 700),
          rustRound (tweakAt 100 0 l 500 600),
          rustRound (tweakAt 100 0 l 500 400),
          rustRound (tweakAt 100 0 l 500 300),
          rustRound (tweakAt 100 0 l 500 200),
          rustRound (tweakAt 100 0 l 500 100)] := rfl
      rw [show ((900 - 500) / 100 : Nat) = 4 from rfl, he]
      simp only [List.chain'_cons, List.chain'_singleton, and_true]
      refine ⟨?_, ?_, ?_, ?_, ?_, ?_, ?_⟩
      · exact rustRound_mono (by
              simp only [tweakAt, index_of_500, index_of_0, index_of_1000]
              norm_num
              try linarith)
      · exact rustRound_mono (by
              simp only [tweakAt, index_of_500, index_of_0, index_of_1000]
              norm_num
              try linarith)
      · exact rustRound_mono (by
              simp only [tweakAt, index_of_500, index_of_0, index_of_1000]
              norm_num
              try linarith)
      · exact rustRound_mono (by
              simp only [tweakAt, index_of_500, index_of_0, index_of_1000]
              norm_num
              try linarith)
      · exact rustRound_mono (by
              simp only [tweakAt, index_of_500, index_of_0, index_of_1000]
              norm_num
              try linarith)
      · exact rustRound_mono (by
              simp only [tweakAt, index_of_500, index_of_0, index_of_1000]
              norm_num
              try linarith)
      · exact rustRound_mono (by
              simp only [tweakAt, index_of_500, index_of_0, index_of_1000]
              norm_num
              try linarith)
  · -- anchor 600
    subst hae
    constructor
    · rw [create_distribution_600]
      simp only [List.chain'_cons, List.chain'_singleton, and_true]
      refine ⟨?_, ?_, ?_, ?_, ?_, ?_, ?_, ?_⟩
      · exact roundPairLe (by
              simp only [tweakAt, index_of_600, index_of_0, index_of_1000]
              norm_num
              try linarith)
      · exact roundPairLe (by
              simp only [tweakAt, index_of_600, index_of_0, index_of_1000]
              norm_num
              try linarith)
      · exact roundPairAnchorL (by
              simp only [tweakAt, index_of_600, index_of_0, index_of_1000]
              norm_num
              try linarith)
      · exact roundPairAnchorR (by
              simp only [tweakAt, index_of_600, index_of_0, index_of_1000]
              norm_num
              try linarith)
      · exact roundPairLe (by
              simp only [tweakAt, index_of_600, index_of_0, index_of_1000]
              norm_num
              try linarith)
      · exact roundPairLe (by
              simp only [tweakAt, index_of_600, index_of_0, index_of_1000]
              norm_num
              try linarith)
      · exact roundPairLe (by
              simp only [tweakAt, index_of_600, index_of_0, index_of_1000]
              norm_num
              try linarith)
      · exact roundPairLe (by
              simp only [tweakAt, index_of_600, index_of_0, index_of_1000]
              norm_num
              try linarith)
    · rw [create_distribution_600]
      have he :
          ([rustRound (tweakAt 100 0 l 600 900), rustRound (tweakAt 100 0 l 600 800), rustRound (tweakAt 100 0 l 600 700), l, rustRound (tweakAt 100 0 l 600 500), rustRound (tweakAt 100 0 l 600 400), rustRound (tweakAt 100 0 l 600 300), rustRound (tweakAt 100 0 l 600 200), rustRound (tweakAt 100 0 l 600 100)].eraseIdx 3 : List ℚ) =
          [rustRound (tweakAt 100 0 l 600 900),
          rustRound (tweakAt 100 0 l 600 800),
          rustRound (tweakAt 100 0 l 600 700),
          rustRound (tweakAt 100 0 l 600 500),
          rustRound (tweakAt 100 0 l 600 400),
          rustRound (tweakAt 100 0 l 600 300),
          rustRound (tweakAt 100 0 l 600 200),
          rustRound (tweakAt 100 0 l 600 100)] := rfl
      rw [show ((900 - 600) / 100 : Nat) = 3 from rfl, he]
      simp only [List.chain'_cons, List.chain'_singleton, and_true]
      refine ⟨?_, ?_, ?_, ?_, ?_, ?_, ?_⟩
      · exact rustRound_mono (by
              simp only [tweakAt, index_of_600, index_of_0, index_of_1000]
              norm_num
              try linarith)
      · exact rustRound_mono (by
              simp only [tweakAt, index_of_600, index_of_0, index_of_1000]
              norm_num
              try linarith)
      · exact rustRound_mono (by
              simp only [tweakAt, index_of_600, index_of_0, index_of_1000]
              norm_num
              try linarith)
      · exact rustRound_mono (by
              simp only [tweakAt, index_of_600, index_of_0, index_of_1000]
              norm_num
              try linarith)
      · exact rustRound_mono (by
              simp only [tweakAt, index_of_600, index_of_0, index_of_1000]
              norm_num
              try linarith)
      · exact rustRound_mono (by
              simp only [tweakAt, index_of_600, index_of_0, index_of_1000]
              norm_num
              try linarith)
      · exact rustRound_mono (by
              simp only [tweakAt, index_of_600, index_of_0, index_of_1000]
              norm_num
              try linarith)
  · -- anchor 700
    subst hae
    constructor
    · rw [create_distribution_700]
      simp only [List.chain'_cons, List.chain'_singleton, and_true]
      refine ⟨?_, ?_, ?_, ?_, ?_, ?_, ?_, ?_⟩
      · exact roundPairLe (by
              simp only [tweakAt, index_of_700, index_of_0, index_of_1000]
              norm_num
              try linarith)
      · exact roundPairAnchorL (by
              simp only [tweakAt, index_of_700, index_of_0, index_of_1000]
              norm_num
              try linarith)
      · exact roundPairAnchorR (by
              simp only [tweakAt, index_of_700, index_of_0, index_of_1000]
              norm_num
              try linarith)
      · exact roundPairLe (by
              simp only [tweakAt, index_of_700, index_of_0, index_of_1000]
              norm_num
              try linarith)
      · exact roundPairLe (by
              simp only [tweakAt, index_of_700, index_of_0, index_of_1000]
              norm_num
              try linarith)
      · exact roundPairLe (by
              simp only [tweakAt, index_of_700, index_of_0, index_of_1000]
              norm_num
              try linarith)
      · exact roundPairLe (by
              simp only [tweakAt, index_of_700, index_of_0, index_of_1000]
              norm_num
              try linarith)
      · exact roundPairLe (by
              simp only [tweakAt, index_of_700, index_of_0, index_of_1000]
              norm_num
              try linarith)
    · rw [create_distribution_700]
      have he :
          ([rustRound (tweakAt 100 0 l 700 900), rustRound (tweakAt 100 0 l 700 800), l, rustRound (tweakAt 100 0 l 700 600), rustRound (tweakAt 100 0 l 700 500), rustRound (tweakAt 100 0 l 700 400), rustRound (tweakAt 100 0 l 700 300), rustRound (tweakAt 100 0 l 700 200), rustRound (tweakAt 100 0 l 700 100)].eraseIdx 2 : List ℚ) =
          [rustRound (tweakAt 100 0 l 700 900),
          rustRound (tweakAt 100 0 l 700 800),
          rustRound (tweakAt 100 0 l 700 600),
          rustRound (tweakAt 100 0 l 700 500),
          rustRound (tweakAt 100 0 l 700 400),
          rustRound (tweakAt 100 0 l 700 300),
          rustRound (tweakAt 100 0 l 700 200),
          rustRound (tweakAt 100 0 l 700 100)] := rfl
      rw [show ((900 - 700) / 100 : Nat) = 2 from rfl, he]
      simp only [List.chain'_cons, List.chain'_singleton, and_true]
      refine ⟨?_, ?_, ?_, ?_, ?_, ?_, ?_⟩
      · exact rustRound_mono (by
              simp only [tweakAt, index_of_700, index_of_0, index_of_1000]
              norm_num
              try linarith)
      · exact rustRound_mono (by
              simp only [tweakAt, index_of_700, index_of_0, index_of_1000]
              norm_num
              try linarith)
      · exact rustRound_mono (by
              simp only [tweakAt, index_of_700, index_of_0, index_of_1000]
              norm_num
              try linarith)
      · exact rustRound_mono (by
              simp only [tweakAt, index_of_700, index_of_0, index_of_1000]
              norm_num
              try linarith)
      · exact rustRound_mono (by
              simp only [tweakAt, index_of_700, index_of_0, index_of_1000]
              norm_num
              try linarith)
      · exact rustRound_mono (by
              simp only [tweakAt, index_of_700, index_of_0, index_of_1000]
              norm_num
              try linarith)
      · exact rustRound_mono (by
              simp only [tweakAt, index_of_700, index_of_0, index_of_1000]
              norm_num
              try linarith)
  · -- anchor 800
    subst hae
    constructor
    · rw [create_distribution_800]
      simp only [List.chain'_cons, List.chain'_singleton, and_true]
      refine ⟨?_, ?_, ?_, ?_, ?_, ?_, ?_, ?_⟩
      · exact roundPairAnchorL (by
              simp only [tweakAt, index_of_800, index_of_0, index_of_1000]
              norm_num
              try linarith)
      · exact roundPairAnchorR (by
              simp only [tweakAt, index_of_800, index_of_0, index_of_1000]
              norm_num
              try linarith)
      · exact roundPairLe (by
              simp only [tweakAt, index_of_800, index_of_0, index_of_1000]
              norm_num
              try linarith)
      · exact roundPairLe (by
              simp only [tweakAt, index_of_800, index_of_0, index_of_1000]
              norm_num
              try linarith)
      · exact roundPairLe (by
              simp only [tweakAt, index_of_800, index_of_0, index_of_1000]
              norm_num
              try linarith)
      · exact roundPairLe (by
              simp only [tweakAt, index_of_800, index_of_0, index_of_1000]
              norm_num
              try linarith)
      · exact roundPairLe (by
              simp only [tweakAt, index_of_800, index_of_0, index_of_1000]
              norm_num
              try linarith)
      · exact roundPairLe (by
              simp only [tweakAt, index_of_800, index_of_0, index_of_1000]
              norm_num
              try linarith)
    · rw [create_distribution_800]
      have he :
          ([rustRound (tweakAt 100 0 l 800 900), l, rustRound (tweakAt 100 0 l 800 700), rustRound (tweakAt 100 0 l 800 600), rustRound (tweakAt 100 0 l 800 500), rustRound (tweakAt 100 0 l 800 400), rustRound (tweakAt 100 0 l 800 300), rustRound (tweakAt 100 0 l 800 200), rustRound (tweakAt 100 0 l 800 100)].eraseIdx 1 : List ℚ) =
          [rustRound (tweakAt 100 0 l 800 900),
          rustRound (tweakAt 100 0 l 800 700),
          rustRound (tweakAt 100 0 l 800 600),
          rustRound (tweakAt 100 0 l 800 500),
          rustRound (tweakAt 100 0 l 800 400),
          rustRound (tweakAt 100 0 l 800 300),
          rustRound (tweakAt 100 0 l 800 200),
          rustRound (tweakAt 100 0 l 800 100)] := rfl
      rw [show ((900 - 800) / 100 : Nat) = 1 from rfl, he]
      simp only [List.chain'_cons, List.chain'_singleton, and_true]
      refine ⟨?_, ?_, ?_, ?_, ?_, ?_, ?_⟩
      · exact rustRound_mono (by
              simp only [tweakAt, index_of_800, index_of_0, index_of_1000]
              norm_num
              try linarith)
      · exact rustRound_mono (by
              simp only [tweakAt, index_of_800, index_of_0, index_of_1000]
              norm_num
              try linarith)
      · exact rustRound_mono (by
              simp only [tweakAt, index_of_800, index_of_0, index_of_1000]
              norm_num
              try linarith)
      · exact rustRound_mono (by
              simp only [tweakAt, index_of_800, index_of_0, index_of_1000]
              norm_num
              try linarith)
      · exact rustRound_mono (by
              simp only [tweakAt, index_of_800, index_of_0, index_of_1000]
              norm_num
              try linarith)
      · exact rustRound_mono (by
              simp only [tweakAt, index_of_800, index_of_0, index_of_1000]
              norm_num
              try linarith)
      · exact rustRound_mono (by
              simp only [tweakAt, index_of_800, index_of_0, index_of_1000]
              norm_num
              try linarith)
  · -- anchor 900
    subst hae
    constructor
    · rw [create_distribution_900]
      simp only [List.chain'_cons, List.chain'_singleton, and_true]
      refine ⟨?_, ?_, ?_, ?_, ?_, ?_, ?_, ?_⟩
      · exact roundPairAnchorR (by
              simp only [tweakAt, index_of_900, index_of_0, index_of_1000]
              norm_num
              try linarith)
      · exact roundPairLe (by
              simp only [tweakAt, index_of_900, index_of_0, index_of_1000]
              norm_num
              try linarith)
      · exact roundPairLe (by
              simp only [tweakAt, index_of_900, index_of_0, index_of_1000]
              norm_num
              try linarith)
      · exact roundPairLe (by
              simp only [tweakAt, index_of_900, index_of_0, index_of_1000]
              norm_num
              try linarith)
      · exact roundPairLe (by
              simp only [tweakAt, index_of_900, index_of_0, index_of_1000]
              norm_num
              try linarith)
      · exact roundPairLe (by
              simp only [tweakAt, index_of_900, index_of_0, index_of_1000]
              norm_num
              try linarith)
      · exact roundPairLe (by
              simp only [tweakAt, index_of_900, index_of_0, index_of_1000]
              norm_num
              try linarith)
      · exact roundPairLe (by
              simp only [tweakAt, index_of_900, index_of_0, index_of_1000]
              norm_num
              try linarith)
    · rw [create_distribution_900]
      have he :
          ([l, rustRound (tweakAt 100 0 l 900 800), rustRound (tweakAt 100 0 l 900 700), rustRound (tweakAt 100 0 l 900 600), rustRound (tweakAt 100 0 l 900 500), rustRound (tweakAt 100 0 l 900 400), rustRound (tweakAt 100 0 l 900 300), rustRound (tweakAt 100 0 l 900 200), rustRound (tweakAt 100 0 l 900 100)].eraseIdx 0 : List ℚ) =
          [rustRound (tweakAt 100 0 l 900 800),
          rustRound (tweakAt 100 0 l 900 700),
          rustRound (tweakAt 100 0 l 900 600),
          rustRound (tweakAt 100 0 l 900 500),
          rustRound (tweakAt 100 0 l 900 400),
          rustRound (tweakAt 100 0 l 900 300),
          rustRound (tweakAt 100 0 l 900 200),
          rustRound (tweakAt 100 0 l 900 100)] := rfl
      rw [show ((900 - 900) / 100 : Nat) = 0 from rfl, he]
      simp only [List.chain'_cons, List.chain'_singleton, and_true]
      refine ⟨?_, ?_, ?_, ?_, ?_, ?_, ?_⟩
      · exact rustRound_mono (by
              simp only [tweakAt, index_of_900, index_of_0, index_of_1000]
              norm_num
              try linarith)
      · exact rustRound_mono (by
              simp only [tweakAt, index_of_900, index_of_0, index_of_1000]
              norm_num
              try linarith)
      · exact rustRound_mono (by
              simp only [tweakAt, index_of_900, index_of_0, index_of_1000]
              norm_num
              try linarith)
      · exact rustRound_mono (by
              simp only [tweakAt, index_of_900, index_of_0, index_of_1000]
              norm_num
              try linarith)
      · exact rustRound_mono (by
              simp only [tweakAt, index_of_900, index_of_0, index_of_1000]
              norm_num
              try linarith)
      · exact rustRound_mono (by
              simp only [tweakAt, index_of_900, index_of_0, index_of_1000]
              norm_num
              try linarith)
      · exact rustRound_mono (by
              simp only [tweakAt, index_of_900, index_of_0, index_of_1000]
              norm_num
              try linarith)
/-- C3 counterexample: the seed `#fafafa` (lightness `5000/51 ≈ 98.04`,
strictly between 0 and 100) at the default anchor 500 with bounds 0/100
yields equal lightness 99 at stops 200 and 300 — a plateau at a value that
is neither 0 nor 100, so the claimed strict decrease fails. -/
theorem c3_counterexample :
    hex_to_hsl "#fafafa".data = .ok (0, 0, 5000/51) ∧
    (0 : ℚ) < 5000/51 ∧ (5000/51 : ℚ) < 100 ∧
    (create_distribution 100 0 (5000/51) 500).getD 1 0 = 99 ∧
    (create_distribution 100 0 (5000/51) 500).getD 2 0 = 99 ∧
    (99 : ℚ) ≠ 0 ∧ (99 : ℚ) ≠ 100 := by
  refine ⟨by decide, by norm_num, by norm_num, by decide, by decide, by norm_num, by norm_num⟩

set_option maxHeartbeats 2000000 in
/-- C3 witness: the amended statement applied at the concrete seed
lightness `2510/51` (of `#00fbb0`) and anchor 500. -/
theorem c3_witness :
    List.Chain' (fun x y => y ≤ x + 1/2) (create_distribution 100 0 (2510/51) 500) := by
  have h := c3_theorem (2510/51) 500 (by decide) (by norm_num) (by norm_num)
  exact h.1.1

/-- C1 (code bug, evaluation at the failing input): the seed `#00fbb0` has
HSL `(162, 100, 2510/51)` and `hsl_to_hex (hex_to_hsl seed)` reproduces
`00fbb0` exactly; yet at `anchor_stop = 300` the generated scale carries
`8fffdd` at stop 300 (the third public stop) — more than one unit per
channel away from `00fbb0` — while the seed reproduction `00fbb0` is
emitted at stop 700 = 1000 − 300 instead: the swapped
`create_distribution(max, min, …)` call plus the descending sort misplace
the anchor for every anchor other than 500. -/
theorem c1_code_eval :
    hex_to_hsl "#00fbb0".data = .ok (162, 100, 2510/51) ∧
    hsl_to_hex 162 100 (2510/51) = "00fbb0".data ∧
    (create_tints
        { name := "c".data, value := "#00fbb0".data, stop := 300, l_min := 0, l_max := 100 }
        "theme".data 0).map (fun t => t.tints.map (fun c => c.value)) =
      .ok ["dbfff4".data, "b3ffe8".data, "8fffdd".data, "6bffd3".data, "47ffc8".data,
        "1fffbc".data, "00fbb0".data, "00a876".data, "005239".data] ∧
    "8fffdd".data ≠ "00fbb0".data := by
  exact ⟨by decide, by decide, by decide, by decide⟩

/-- C2 (code bug, evaluation at the failing input): at anchor 300 with the
default bounds, the code's distribution (as `create_tints` calls it) gives
lightness 93 at public stop 100, while the redistribution formula of the
specification gives 83: grid 0/1000 receive `l_min`/`l_max` (swapped
arguments) and the list is paired with the public stops in reverse. -/
theorem c2_code_eval :
    hex_to_hsl "#00fbb0".data = .ok (162, 100, 2510/51) ∧
    (create_distribution 100 0 (2510/51) 300).getD 0 0 = 93 ∧
    spec_redistribution 0 100 (2510/51) 300 100 = 83 ∧
    (93 : ℚ) ≠ 83 := by
  exact ⟨by decide, by decide, by decide, by norm_num⟩
/-- Unfolding of `create_distribution` at the auxiliary marker `50` used
as the anchor: the scale is produced without error and the seed lightness
is *dropped* (it sat at a trimmed grid position), every emitted value being
a rounded tweak. -/
theorem create_distribution_50 (mn mx l : ℚ) :
    create_distribution mn mx l 50 =
      [rustRound (tweakAt mn mx l 50 900),
       rustRound (tweakAt mn mx l 50 800),
       rustRound (tweakAt mn mx l 50 700),
       rustRound (tweakAt mn mx l 50 600),
       rustRound (tweakAt mn mx l 50 500),
       rustRound (tweakAt mn mx l 50 400),
       rustRound (tweakAt mn mx l 50 300),
       rustRound (tweakAt mn mx l 50 200),
       rustRound (tweakAt mn mx l 50 100)] := by
  have hfilter : DISTRIBUTION_STOPS.filter (fun sv => !(sv == 0 || sv == 1000 || sv == 50)) =
      [100,200,300,400,500,600,700,800,900,950] := by decide
  have hidx : (argsortAsc ([0, 50, 1000] ++ [100,200,300,400,500,600,700,800,900,950])).reverse =
      [2, 12, 11, 10, 9, 8, 7, 6, 5, 4, 3, 1, 0] := by decide
  have htr : sortTrace 13 [2, 12, 11, 10, 9, 8, 7, 6, 5, 4, 3, 1, 0] =
      [(0, 2), (2, 11), (11, 1), (1, 12), (3, 10), (4, 9), (5, 8), (6, 7)] := by decide
  simp only [create_distribution]
  rw [hfilter, hidx]
  simp only [List.map_cons, List.map_nil, List.cons_append, List.nil_append,
    List.length_cons, List.length_nil]
  norm_num
  rw [sort_by_indices_eq_trace, htr]
  simp [applySwaps, listSwap]

/-- Unfolding of `create_distribution` at the auxiliary marker `950` used
as the anchor: the scale is produced without error and the seed lightness
is *dropped* (it sat at a trimmed grid position), every emitted value being
a rounded tweak. -/
theorem create_distribution_950 (mn mx l : ℚ) :
    create_distribution mn mx l 950 =
      [rustRound (tweakAt mn mx l 950 900),
       rustRound (tweakAt mn mx l 950 800),
       rustRound (tweakAt mn mx l 950 700),
       rustRound (tweakAt mn mx l 950 600),
       rustRound (tweakAt mn mx l 950 500),
       rustRound (tweakAt mn mx l 950 400),
       rustRound (tweakAt mn mx l 950 300),
       rustRound (tweakAt mn mx l 950 200),
       rustRound (tweakAt mn mx l 950 100)] := by
  have hfilter : DISTRIBUTION_STOPS.filter (fun sv => !(sv == 0 || sv == 1000 || sv == 950)) =
      [50,100,200,300,400,500,600,700,800,900] := by decide
  have hidx : (argsortAsc ([0, 950, 1000] ++ [50,100,200,300,400,500,600,700,800,900])).reverse =
      [2, 1, 12, 11, 10, 9, 8, 7, 6, 5, 4, 3, 0] := by decide
  have htr : sortTrace 13 [2, 1, 12, 11, 10, 9, 8, 7, 6, 5, 4, 3, 0] =
      [(0, 2), (2, 12), (3, 11), (4, 10), (5, 9), (6, 8)] := by decide
  simp only [create_distribution]
  rw [hfilter, hidx]
  simp only [List.map_cons, List.map_nil, List.cons_append, List.nil_append,
    List.length_cons, List.length_nil]
  norm_num
  rw [sort_by_indices_eq_trace, htr]
  simp [applySwaps, listSwap]

/-- `tintsLoop` succeeds and yields one color per `(index, stop)` pair as
soon as every index is within the distribution. -/
theorem tintsLoop_ok (group selfName : Str) (h s : ℚ) (dist : List ℚ) (idb : Nat) :
    ∀ pairs : List (Nat × Nat), (∀ p ∈ pairs, p.1 < dist.length) →
      tintsLoop group selfName h s dist idb pairs =
        .ok (pairs.map (fun p =>
          ({ id := idb + p.1, version := 1,
             name := group ++ " / ".data ++ selfName ++ " / ".data ++
               selfName ++ ".".data ++ (Nat.repr p.2).data,
             value := hsl_to_hex (rustRemEuclid h 360) (clampQ s 0 100)
               (clampQ (dist.getD p.1 0) 0 100) } : Color))) := by
  intro pairs
  induction pairs with
  | nil => intro _; rfl
  | cons p rest ih =>
    intro hb
    obtain ⟨i, stop⟩ := p
    have hi : i < dist.length := hb (i, stop) (by simp)
    have hget : dist.get? i = some (dist.getD i 0) := by
      rw [List.getD_eq_getElem _ _ hi]
      exact List.get?_eq_get hi
    simp only [tintsLoop, hget]
    rw [ih (fun q hq => hb q (List.mem_cons_of_mem _ hq))]
    simp [List.map]

/-- For every canonical anchor the distribution has exactly nine entries. -/
theorem create_distribution_length (mn mx l : ℚ) {a : Nat} (ha : a ∈ STOPS) :
    (create_distribution mn mx l a).length = 9 := by
  simp only [STOPS, List.mem_cons, List.not_mem_nil, or_false] at ha
  rcases ha with rfl | rfl | rfl | rfl | rfl | rfl | rfl | rfl | rfl
  · rw [create_distribution_100]; rfl
  · rw [create_distribution_200]; rfl
  · rw [create_distribution_300]; rfl
  · rw [create_distribution_400]; rfl
  · rw [create_distribution_500]; rfl
  · rw [create_distribution_600]; rfl
  · rw [create_distribution_700]; rfl
  · rw [create_distribution_800]; rfl
  · rw [create_distribution_900]; rfl

/-- C9 (confirmed): for every request whose hex parses and whose anchor is
one of the nine canonical stops, `create_tints` succeeds and returns
exactly nine colors, named one per canonical stop in ascending stop order
(`<group> / <name> / <name>.<stop>` for stop = 100, …, 900); in particular
no auxiliary marker 0/50/950/1000 is ever emitted. -/
theorem c9_theorem (base : BaseColor) (group : Str) (idb : Nat) (h s l : ℚ)
    (hstop : base.stop ∈ STOPS) (hhsl : hex_to_hsl base.value = .ok (h, s, l)) :
    ∃ tints, create_tints base group idb = .ok tints ∧
      tints.tints.map (fun c => c.name) =
        STOPS.map (fun stop => group ++ " / ".data ++ base.name ++ " / ".data ++
          base.name ++ ".".data ++ (Nat.repr stop).data) ∧
      tints.tints.length = 9 := by
  have hlen := create_distribution_length (base.l_max : ℚ) (base.l_min : ℚ) l hstop
  have henum : STOPS.enum =
      [(0, 100), (1, 200), (2, 300), (3, 400), (4, 500), (5, 600), (6, 700), (7, 800), (8, 900)] := by
    decide
  have hbound : ∀ p ∈ STOPS.enum,
      p.1 < (create_distribution (base.l_max : ℚ) (base.l_min : ℚ) l base.stop).length := by
    intro p hp
    rw [hlen]
    rw [henum] at hp
    simp only [List.mem_cons, List.not_mem_nil, or_false] at hp
    rcases hp with rfl | rfl | rfl | rfl | rfl | rfl | rfl | rfl | rfl <;> norm_num
  have hloop := tintsLoop_ok group base.name h s
    (create_distribution (base.l_max : ℚ) (base.l_min : ℚ) l base.stop) idb STOPS.enum hbound
  refine ⟨{ name := base.name,
            tints := STOPS.enum.map (fun p =>
              ({ id := idb + p.1, version := 1,
                 name := group ++ " / ".data ++ base.name ++ " / ".data ++
                   base.name ++ ".".data ++ (Nat.repr p.2).data,
                 value := hsl_to_hex (rustRemEuclid h 360) (clampQ s 0 100)
                   (clampQ ((create_distribution (base.l_max : ℚ) (base.l_min : ℚ) l
                     base.stop).getD p.1 0) 0 100) } : Color)) }, ?_, ?_, ?_⟩
  · simp only [create_tints, hhsl]
    rw [hloop]
  · rw [henum]
    simp [STOPS]
  · rw [henum]
    simp

/-- C6 counterexample: an `anchor_stop` outside the canonical set is *not*
rejected anywhere — `create_tints` runs to completion on anchor 50 and
returns a full nine-color scale, and `parse_base_color` performs no
stop-set validation at all (it even parses the textual stop `"50"` in
hexadecimal, yielding 80). -/
theorem c6_counterexample :
    (create_tints
        { name := "c".data, value := "#00fbb0".data, stop := 50, l_min := 0, l_max := 100 }
        "theme".data 0).map (fun t => t.tints.length) = .ok 9 ∧
    parse_base_color "c:00fbb0:50".data =
      .ok { name := "c".data, value := "00fbb0".data, stop := 80, l_min := 0, l_max := 100 } := by
  exact ⟨by decide, by decide⟩

/-- C6 (amended): no input validation of `anchor_stop` exists.  For any
seed whose hex parses, the auxiliary-only markers 50 and 950 flow straight
into the generator, which returns a full nine-color scale (silently
dropping the seed's own lightness); and the CLI parser accepts any stop
field, reading it as a hexadecimal integer (`"50"` becomes 80). -/
theorem c6_amended_theorem (name value : Str) (idb : Nat) (h s l : ℚ)
    (hhsl : hex_to_hsl value = .ok (h, s, l)) :
    (create_tints { name := name, value := value, stop := 50, l_min := 0, l_max := 100 }
        "theme".data idb).map (fun t => t.tints.length) = .ok 9 ∧
    (create_tints { name := name, value := value, stop := 950, l_min := 0, l_max := 100 }
        "theme".data idb).map (fun t => t.tints.length) = .ok 9 ∧
    parse_base_color "c:00fbb0:50".data =
      .ok { name := "c".data, value := "00fbb0".data, stop := 80, l_min := 0, l_max := 100 } := by
  have henum : STOPS.enum =
      [(0, 100), (1, 200), (2, 300), (3, 400), (4, 500), (5, 600), (6, 700), (7, 800), (8, 900)] := by
    decide
  refine ⟨?_, ?_, by decide⟩
  · have hlen : (create_distribution ((100 : Nat) : ℚ) ((0 : Nat) : ℚ) l 50).length = 9 := by
      rw [create_distribution_50]; rfl
    have hbound : ∀ p ∈ STOPS.enum,
        p.1 < (create_distribution ((100 : Nat) : ℚ) ((0 : Nat) : ℚ) l 50).length := by
      intro p hp
      rw [hlen]
      rw [henum] at hp
      simp only [List.mem_cons, List.not_mem_nil, or_false] at hp
      rcases hp with rfl | rfl | rfl | rfl | rfl | rfl | rfl | rfl | rfl <;> norm_num
    have hloop := tintsLoop_ok "theme".data name h s
      (create_distribution ((100 : Nat) : ℚ) ((0 : Nat) : ℚ) l 50) idb STOPS.enum hbound
    simp only [create_tints, hhsl]
    rw [hloop]
    rw [henum]
    simp [Except.map]
  · have hlen : (create_distribution ((100 : Nat) : ℚ) ((0 : Nat) : ℚ) l 950).length = 9 := by
      rw [create_distribution_950]; rfl
    have hbound : ∀ p ∈ STOPS.enum,
        p.1 < (create_distribution ((100 : Nat) : ℚ) ((0 : Nat) : ℚ) l 950).length := by
      intro p hp
      rw [hlen]
      rw [henum] at hp
      simp only [List.mem_cons, List.not_mem_nil, or_false] at hp
      rcases hp with rfl | rfl | rfl | rfl | rfl | rfl | rfl | rfl | rfl <;> norm_num
    have hloop := tintsLoop_ok "theme".data name h s
      (create_distribution ((100 : Nat) : ℚ) ((0 : Nat) : ℚ) l 950) idb STOPS.enum hbound
    simp only [create_tints, hhsl]
    rw [hloop]
    rw [henum]
    simp [Except.map]

/-- C6 witness: the amended statement at the seed `#00fbb0`. -/
theorem c6_witness :
    (create_tints
        { name := "brand".data, value := "#00fbb0".data, stop := 50, l_min := 0, l_max := 100 }
        "theme".data 0).map (fun t => t.tints.length) = .ok 9 := by
  have := c6_amended_theorem "brand".data "#00fbb0".data 0 162 100 (2510/51) (by decide)
  exact this.1

/-- C5 counterexample: against a palette that *does* contain the group
`brand` (anchor-stop entry `#00fbb0`), the link request
`{name := accent, value := brand}` does not copy anything — the whole
update fails with `InvalidFormat` because `"brand"` is not `#RRGGBB`; no
`ReferenceNotFound` error exists in the program. -/
theorem c5_counterexample :
    update_colors
      [{ id := 7, version := 1, name := "theme / brand / brand.500".data,
         value := "00fbb0".data }]
      "theme".data
      [{ name := "accent".data, value := "brand".data, stop := 500, l_min := 0, l_max := 100 }]
      50 = .error .invalidFormat := by
  decide

/-- C5 (amended): there is no link-color feature.  A base-color request
whose value names another group is rejected regardless of whether that
group is present: against *any* document state the update fails with
`InvalidFormat` (the value is not a 7-character `#RRGGBB` string), and the
CLI path already rejects `accent:brand` because `brand` is not
hexadecimal. -/
theorem c5_amended_theorem (colorVariables : List Color) (idb : Nat) :
    update_colors colorVariables "theme".data
      [{ name := "accent".data, value := "brand".data, stop := 500, l_min := 0, l_max := 100 }]
      idb = .error .invalidFormat ∧
    parse_base_color "accent:brand".data = .error .cliParse := by
  constructor
  · have hct : create_tints
        { name := "accent".data, value := "brand".data, stop := 500, l_min := 0, l_max := 100 }
        "theme".data idb = .error .invalidFormat := by
      have hv : hex_to_hsl "brand".data = .error .invalidFormat := by decide
      simp only [create_tints, hv]
    simp only [update_colors, schemeLoop, hct]
  · decide

/-! ## Reconciler theory (`update_by_name`) -/

/-- The in-place update performed on a matched entry: id kept, version
bumped by one, value overwritten. -/
def bump (o n : Color) : Color := { o with version := o.version + 1, value := n.value }

theorem bump_name (o n : Color) : (bump o n).name = o.name := rfl

theorem bump_id (o n : Color) : (bump o n).id = o.id := rfl

/-- Two suffixes of the same list with equal lengths coincide. -/
theorem suffix_eq_of_length {l1 l2 s : Str} (h1 : l1 <:+ s) (h2 : l2 <:+ s)
    (h : l1.length = l2.length) : l1 = l2 := by
  rcases h1 with ⟨t1, rfl⟩
  rcases h2 with ⟨t2, ht⟩
  have hlen : t2.length = t1.length := by
    have := congrArg List.length ht
    simp only [List.length_append] at this
    omega
  exact ((List.append_inj ht hlen).2).symm

theorem splitChar_ne_nil (sep : Char) (s : Str) : splitChar sep s ≠ [] := by
  cases s with
  | nil => simp [splitChar]
  | cons c rest =>
    simp only [splitChar]
    rcases h : splitChar sep rest with _ | ⟨seg, segs⟩
    · simp
    · by_cases hc : c = sep <;> simp [hc]

theorem splitChar_cons (sep c : Char) (rest : Str) :
    splitChar sep (c :: rest) =
      match splitChar sep rest with
      | [] => [[]]
      | seg :: segs => if c = sep then [] :: seg :: segs else (c :: seg) :: segs := rfl

theorem splitChar_singleton (sep : Char) :
    ∀ (s seg : Str), splitChar sep s = [seg] → seg = s := by
  intro s
  induction s with
  | nil => intro seg h; simp [splitChar] at h; exact h
  | cons c rest ih =>
    intro seg h
    rw [splitChar_cons] at h
    rcases hs : splitChar sep rest with _ | ⟨seg0, segs0⟩
    · exact absurd hs (splitChar_ne_nil sep rest)
    · rw [hs] at h
      have h' : (if c = sep then [] :: seg0 :: segs0 else (c :: seg0) :: segs0) = [seg] := h
      by_cases hc : c = sep
      · rw [if_pos hc] at h'
        simp at h'
      · rw [if_neg hc] at h'
        have h1 : c :: seg0 = seg ∧ segs0 = [] := by
          constructor
          · exact (List.cons.injEq _ _ _ _ ▸ h').1
          · exact (List.cons.injEq _ _ _ _ ▸ h').2
        rcases h1 with ⟨h1, h2⟩
        subst h2
        have := ih seg0 hs
        subst this
        exact h1.symm

/-- The last `/`-separated segment of a string is one of its suffixes. -/
theorem lastSegment_suffix : ∀ s : Str, lastSegment s <:+ s := by
  intro s
  induction s with
  | nil => simp [lastSegment, splitChar, List.getLastD]
  | cons c rest ih =>
    simp only [lastSegment]
    rw [splitChar_cons]
    rcases hs : splitChar '/' rest with _ | ⟨seg, segs⟩
    · exact absurd hs (splitChar_ne_nil '/' rest)
    · show ((if c = '/' then [] :: seg :: segs else (c :: seg) :: segs).getLastD []) <:+ c :: rest
      by_cases hc : c = '/'
      · rw [if_pos hc]
        have : ([] :: seg :: segs).getLastD [] = (seg :: segs).getLastD [] := by
          simp [List.getLastD]
        rw [this]
        have hsuf : (seg :: segs).getLastD [] <:+ rest := by
          have := ih
          simp only [lastSegment, hs] at this
          exact this
        exact hsuf.trans (List.suffix_cons c rest)
      · rw [if_neg hc]
        cases segs with
        | nil =>
          have hseg : seg = rest := splitChar_singleton '/' rest seg hs
          subst hseg
          simp [List.getLastD]
        | cons s1 ss =>
          have : ((c :: seg) :: s1 :: ss).getLastD [] = (s1 :: ss).getLastD [] := by
            simp [List.getLastD]
          rw [this]
          have hsuf : (s1 :: ss).getLastD [] <:+ rest := by
            have := ih
            simp only [lastSegment, hs] at this
            simpa [List.getLastD] using this
          exact hsuf.trans (List.suffix_cons c rest)

/-- A color always matches itself (its last name segment ends its name). -/
theorem matchesB_self (n : Color) : matchesB n n = true := by
  simp only [matchesB, List.isSuffixOf_iff_suffix]
  exact lastSegment_suffix n.name

/-- Matching only looks at the old entry's name. -/
theorem matchesB_name_eq {o o' : Color} (n : Color) (h : o.name = o'.name) :
    matchesB o n = matchesB o' n := by
  simp only [matchesB, h]

/-- Incompatibility of two generated colors: no name can end with both
their last segments. -/
def Incomp (n₁ n₂ : Color) : Prop :=
  ∀ s : Str, ¬((lastSegment n₁.name).isSuffixOf s = true ∧
    (lastSegment n₂.name).isSuffixOf s = true)

/-- Distinct last segments of equal length are incompatible. -/
theorem incomp_of_ne_of_length {n₁ n₂ : Color}
    (hne : lastSegment n₁.name ≠ lastSegment n₂.name)
    (hlen : (lastSegment n₁.name).length = (lastSegment n₂.name).length) :
    Incomp n₁ n₂ := by
  intro s hs
  rcases hs with ⟨h1, h2⟩
  rw [List.isSuffixOf_iff_suffix] at h1 h2
  exact hne (suffix_eq_of_length h1 h2 hlen)

/-- The per-entry effect of one reconciliation pass: the first generated
color whose last name segment ends the entry's name bumps it. -/
def reconcileEntry (news : List Color) (o : Color) : Color :=
  match news.find? (fun n => matchesB o n) with
  | some n => bump o n
  | none => o

theorem reconcileEntry_nil (o : Color) : reconcileEntry [] o = o := rfl

theorem reconcileEntry_cons_pos {o n : Color} (news : List Color)
    (h : matchesB o n = true) :
    reconcileEntry (n :: news) o = bump o n := by
  simp only [reconcileEntry, List.find?_cons_of_pos _ h]

theorem reconcileEntry_cons_neg {o n : Color} (news : List Color)
    (h : matchesB o n = false) :
    reconcileEntry (n :: news) o = reconcileEntry news o := by
  unfold reconcileEntry
  rw [List.find?_cons_of_neg _ (by simp [h])]

theorem reconcileEntry_name (news : List Color) (o : Color) :
    (reconcileEntry news o).name = o.name := by
  unfold reconcileEntry
  rcases news.find? (fun n => matchesB o n) with _ | n <;> rfl

theorem reconcileEntry_id (news : List Color) (o : Color) :
    (reconcileEntry news o).id = o.id := by
  unfold reconcileEntry
  rcases news.find? (fun n => matchesB o n) with _ | n <;> rfl

theorem ubnStep_no_match {n : Color} :
    ∀ {old : List Color}, (∀ o ∈ old, matchesB o n = false) →
      ubnStep old n = old ++ [n] := by
  intro old
  induction old with
  | nil => intro _; rfl
  | cons o rest ih =>
    intro h
    have ho := h o (List.mem_cons_self o rest)
    simp only [ubnStep, ho, Bool.false_eq_true, if_false, List.cons_append]
    rw [ih (fun o' ho' => h o' (List.mem_cons_of_mem _ ho'))]

theorem ubnStep_append_of_match {n : Color} :
    ∀ {old : List Color} (extra : List Color), (∃ o ∈ old, matchesB o n = true) →
      ubnStep (old ++ extra) n = ubnStep old n ++ extra := by
  intro old
  induction old with
  | nil => intro extra h; simp at h
  | cons o rest ih =>
    intro extra h
    by_cases hm : matchesB o n = true
    · simp only [List.cons_append, ubnStep, hm, if_true]
      rfl
    · have h' : ∃ o' ∈ rest, matchesB o' n = true := by
        rcases h with ⟨o', ho', hmo'⟩
        rcases List.mem_cons.mp ho' with rfl | hr
        · exact absurd hmo' hm
        · exact ⟨o', hr, hmo'⟩
      have hmf : matchesB o n = false := by simpa using hm
      simp only [List.cons_append, ubnStep, hmf, Bool.false_eq_true, if_false, List.append_eq]
      rw [ih extra h']

theorem map_if_no_match {n : Color} {l : List Color}
    (h : ∀ o ∈ l, matchesB o n = false) :
    l.map (fun o => if matchesB o n then bump o n else o) = l := by
  have hc : ∀ o ∈ l, (if matchesB o n then bump o n else o) = o :=
    fun o ho => by simp [h o ho]
  rw [List.map_congr_left hc]
  exact List.map_id l

theorem ubnStep_match {n : Color} :
    ∀ {old : List Color}, (old.filter (fun o => matchesB o n)).length ≤ 1 →
      (∃ o ∈ old, matchesB o n = true) →
      ubnStep old n = old.map (fun o => if matchesB o n then bump o n else o) := by
  intro old
  induction old with
  | nil => intro _ h; simp at h
  | cons o rest ih =>
    intro h1 h2
    by_cases hm : matchesB o n = true
    · have hrest : ∀ o' ∈ rest, matchesB o' n = false := by
        have hlen : (rest.filter (fun o => matchesB o n)).length = 0 := by
          simp only [List.filter_cons, hm, if_true, List.length_cons] at h1
          omega
        intro o' ho'
        have := List.filter_eq_nil_iff.mp (List.length_eq_zero.mp hlen) o' ho'
        simpa using this
      simp only [ubnStep, hm, if_true, List.map_cons]
      rw [map_if_no_match hrest]
      rfl
    · have h2' : ∃ o' ∈ rest, matchesB o' n = true := by
        rcases h2 with ⟨o', ho', hmo'⟩
        rcases List.mem_cons.mp ho' with rfl | hr
        · exact absurd hmo' hm
        · exact ⟨o', hr, hmo'⟩
      have hmf : matchesB o n = false := by simpa using hm
      have h1' : (rest.filter (fun o => matchesB o n)).length ≤ 1 := by
        simp only [List.filter_cons, hmf, Bool.false_eq_true, if_false] at h1
        exact h1
      simp only [ubnStep, hmf, Bool.false_eq_true, if_false, List.map_cons]
      rw [ih h1' h2']

/-- A matched entry is matched by no *other* pairwise-incompatible color. -/
theorem no_other_match {o n m : Color} (hin : Incomp n m)
    (hn : matchesB o n = true) : matchesB o m = false := by
  by_contra hm
  have hm' : matchesB o m = true := by simpa using hm
  exact hin o.name ⟨by simpa [matchesB] using hn, by simpa [matchesB] using hm'⟩

/-- `List.any` only depends on the predicate's values on the members. -/
theorem anyCongr {α : Type} {p q : α → Bool} :
    ∀ {l : List α}, (∀ a ∈ l, p a = q a) → l.any p = l.any q := by
  intro l
  induction l with
  | nil => intro _; rfl
  | cons a t ih =>
    intro h
    simp only [List.any_cons, h a (List.mem_cons_self a t),
      ih (fun x hx => h x (List.mem_cons_of_mem _ hx))]

/-- Characterization of one full drain of `update_by_name`'s loop, carrying
the already-appended entries `extra`: provided the generated colors are
pairwise incompatible, each matches at most one existing entry, and none
matches an appended entry, the result updates each matched entry in place
via its (unique) matching color and appends the unmatched colors in order. -/
theorem ubn_fold_spec :
    ∀ (news old extra : List Color),
      List.Pairwise Incomp news →
      (∀ n ∈ news, (old.filter (fun o => matchesB o n)).length ≤ 1) →
      (∀ n ∈ news, ∀ e ∈ extra, matchesB e n = false) →
      news.foldl ubnStep (old ++ extra) =
        old.map (reconcileEntry news) ++ extra ++
          news.filter (fun n => !(old.any (fun o => matchesB o n))) := by
  intro news
  induction news with
  | nil =>
    intro old extra _ _ _
    have hmapid : old.map (reconcileEntry []) = old := by
      rw [List.map_congr_left (fun o _ => reconcileEntry_nil o)]
      exact List.map_id old
    simp [hmapid]
  | cons n rest ih =>
    intro old extra hpair h2 hextra
    have hpairn : ∀ m ∈ rest, Incomp n m := fun m hm => (List.pairwise_cons.mp hpair).1 m hm
    have hpairrest : List.Pairwise Incomp rest := (List.pairwise_cons.mp hpair).2
    simp only [List.foldl_cons]
    by_cases hm : ∃ o ∈ old, matchesB o n = true
    · -- `n` updates its (unique) match inside `old`
      rw [ubnStep_append_of_match extra hm,
        ubnStep_match (h2 n (List.mem_cons_self n rest)) hm]
      have hmapname : ∀ o : Color,
          (if matchesB o n then bump o n else o).name = o.name := by
        intro o
        by_cases hmo : matchesB o n = true <;> simp [hmo, bump_name]
      have hfix : ∀ m ∈ rest, ∀ o ∈ old,
          matchesB (if matchesB o n then bump o n else o) m = matchesB o m := by
        intro m _ o _
        exact matchesB_name_eq m (hmapname o)
      rw [ih (old.map (fun o => if matchesB o n then bump o n else o)) extra hpairrest
        ?h2' ?hextra']
      case h2' =>
        intro m hmr
        rw [List.filter_map]
        rw [List.length_map]
        have : (old.filter ((fun o => matchesB o m) ∘
            (fun o => if matchesB o n then bump o n else o))) =
            old.filter (fun o => matchesB o m) :=
          List.filter_congr (fun o ho => hfix m hmr o ho)
        rw [this]
        exact h2 m (List.mem_cons_of_mem _ hmr)
      case hextra' =>
        intro m hmr e he
        exact hextra m (List.mem_cons_of_mem _ hmr) e he
      -- identify the two shapes
      have hmapeq :
          (old.map (fun o => if matchesB o n then bump o n else o)).map
            (reconcileEntry rest) = old.map (reconcileEntry (n :: rest)) := by
        rw [List.map_map]
        refine List.map_congr_left ?_
        intro o _
        by_cases hmo : matchesB o n = true
        · have hnone : rest.find? (fun m => matchesB (bump o n) m) = none := by
            rw [List.find?_eq_none]
            intro m hmr
            have := no_other_match (hpairn m hmr) hmo
            rw [matchesB_name_eq m (bump_name o n)]
            simp [this]
          simp only [Function.comp, hmo, if_true]
          rw [reconcileEntry_cons_pos _ hmo]
          simp only [reconcileEntry, hnone]
        · have hmof : matchesB o n = false := by simpa using hmo
          simp only [Function.comp, hmof, Bool.false_eq_true, if_false]
          rw [reconcileEntry_cons_neg _ hmof]
      have hanyeq : ∀ m ∈ rest,
          ((old.map (fun o => if matchesB o n then bump o n else o)).any
            (fun o => matchesB o m)) = old.any (fun o => matchesB o m) := by
        intro m hmr
        rw [List.any_map]
        exact anyCongr (fun o ho? => hfix m hmr o ho?)
      have hfiltereq :
          rest.filter (fun m =>
            !((old.map (fun o => if matchesB o n then bump o n else o)).any
              (fun o => matchesB o m))) =
          rest.filter (fun m => !(old.any (fun o => matchesB o m))) := by
        refine List.filter_congr ?_
        intro m hmr
        rw [hanyeq m hmr]
      have hheadfilter :
          (n :: rest).filter (fun m => !(old.any (fun o => matchesB o m))) =
          rest.filter (fun m => !(old.any (fun o => matchesB o m))) := by
        rw [List.filter_cons]
        have : old.any (fun o => matchesB o n) = true := by
          rcases hm with ⟨o, ho, hmo⟩
          exact List.any_eq_true.mpr ⟨o, ho, hmo⟩
        simp [this]
      rw [hmapeq, hfiltereq, hheadfilter]
    · -- `n` matches nothing: it is appended after `extra`
      have hallold : ∀ o ∈ old, matchesB o n = false := by
        intro o ho
        by_contra hc
        exact hm ⟨o, ho, by simpa using hc⟩
      have hall : ∀ e ∈ old ++ extra, matchesB e n = false := by
        intro e he
        rcases List.mem_append.mp he with h | h
        · exact hallold e h
        · exact hextra n (List.mem_cons_self n rest) e h
      rw [ubnStep_no_match hall, List.append_assoc]
      rw [ih old (extra ++ [n]) hpairrest
        (fun m hmr => h2 m (List.mem_cons_of_mem _ hmr)) ?hextra2]
      case hextra2 =>
        intro m hmr e he
        rcases List.mem_append.mp he with h | h
        · exact hextra m (List.mem_cons_of_mem _ hmr) e h
        · have : e = n := by simpa using h
          subst this
          exact no_other_match (hpairn m hmr) (matchesB_self e)
      have hmapeq : old.map (reconcileEntry rest) = old.map (reconcileEntry (n :: rest)) := by
        refine List.map_congr_left ?_
        intro o ho
        rw [reconcileEntry_cons_neg _ (hallold o ho)]
      have hheadfilter :
          (n :: rest).filter (fun m => !(old.any (fun o => matchesB o m))) =
          n :: rest.filter (fun m => !(old.any (fun o => matchesB o m))) := by
        rw [List.filter_cons]
        have : old.any (fun o => matchesB o n) = false := by
          rw [List.any_eq_false]
          intro o ho
          simp [hallold o ho]
        simp [this]
      rw [hmapeq, hheadfilter]
      simp [List.append_assoc]

/-- Every color produced by `tintsLoop` carries version 1. -/
theorem tintsLoop_version_one (group selfName : Str) (h s : ℚ) (dist : List ℚ) (idb : Nat) :
    ∀ (pairs : List (Nat × Nat)) (cs : List Color),
      tintsLoop group selfName h s dist idb pairs = .ok cs → ∀ c ∈ cs, c.version = 1 := by
  intro pairs
  induction pairs with
  | nil =>
    intro cs hcs c hc
    simp only [tintsLoop] at hcs
    cases hcs
    simp at hc
  | cons p rest ih =>
    intro cs hcs c hc
    obtain ⟨i, stop⟩ := p
    simp only [tintsLoop] at hcs
    rcases hg : dist.get? i with _ | di
    · rw [hg] at hcs; cases hcs
    · rw [hg] at hcs
      rcases hr : tintsLoop group selfName h s dist idb rest with e | cs'
      · rw [hr] at hcs; cases hcs
      · rw [hr] at hcs
        cases hcs
        rcases List.mem_cons.mp hc with rfl | hmem
        · rfl
        · exact ih cs' hr c hmem

/-- Every color of a successful `create_tints` carries version 1. -/
theorem create_tints_version_one (base : BaseColor) (grp : Str) (idb : Nat)
    (T : ColorTints) (hT : create_tints base grp idb = .ok T) :
    ∀ c ∈ T.tints, c.version = 1 := by
  intro c hc
  rcases hh : hex_to_hsl base.value with e | ⟨h, s, l⟩
  · simp only [create_tints, hh] at hT
    exact absurd hT (by simp)
  · simp only [create_tints, hh] at hT
    rcases hl : tintsLoop grp base.name h s
        (create_distribution (base.l_max : ℚ) (base.l_min : ℚ) l base.stop) idb
        STOPS.enum with e | cs
    · rw [hl] at hT; simp at hT
    · rw [hl] at hT
      have hT' : ({ name := base.name, tints := cs } : ColorTints) = T := by
        simpa using hT
      subst hT'
      exact tintsLoop_version_one grp base.name h s _ idb STOPS.enum cs hl c hc

/-- C7 (confirmed): reconciliation of a generated scale into an existing
group.  Provided the generated colors have pairwise distinct, equal-length
trailing `<name>.<stop>` segments (as every `create_tints` output does)
and each matches at most one existing entry, `update_by_name` maps every
existing entry through `reconcileEntry` — the matched ones keep their `id`
and `name`, gain exactly one version, and take the matching color's hex
(`bump`), the unmatched ones are returned untouched — and then appends the
generated colors that matched nothing, verbatim and in scale order (hence
with their freshly minted ids and version 1, the latter because every
color of a successful `create_tints` has version 1). -/
theorem c7_theorem (g other : ColorTints)
    (hdist : (other.tints.map (fun n => lastSegment n.name)).Pairwise (· ≠ ·))
    (hlen : ∀ n₁ ∈ other.tints, ∀ n₂ ∈ other.tints,
      (lastSegment n₁.name).length = (lastSegment n₂.name).length)
    (h2 : ∀ n ∈ other.tints, (g.tints.filter (fun o => matchesB o n)).length ≤ 1) :
    (update_by_name g other =
      ⟨g.name, g.tints.map (reconcileEntry other.tints) ++
        other.tints.filter (fun n => !(g.tints.any (fun o => matchesB o n)))⟩) ∧
    (∀ o ∈ g.tints, (reconcileEntry other.tints o).id = o.id ∧
      (reconcileEntry other.tints o).name = o.name) ∧
    (∀ o n, other.tints.find? (fun n => matchesB o n) = some n →
      reconcileEntry other.tints o = bump o n) ∧
    (∀ o, other.tints.find? (fun n => matchesB o n) = none →
      reconcileEntry other.tints o = o) ∧
    (∀ (base : BaseColor) (grp : Str) (idb : Nat) (T : ColorTints),
      create_tints base grp idb = .ok T → ∀ c ∈ T.tints, c.version = 1) := by
  have hpair : List.Pairwise Incomp other.tints := by
    have hne : other.tints.Pairwise
        (fun n₁ n₂ => lastSegment n₁.name ≠ lastSegment n₂.name) :=
      (List.pairwise_map.mp hdist)
    exact hne.imp_of_mem (fun ha hb hne' =>
      incomp_of_ne_of_length hne' (hlen _ ha _ hb))
  have hspec := ubn_fold_spec other.tints g.tints [] hpair h2 (by simp)
  rw [List.append_nil] at hspec
  refine ⟨?_, ?_, ?_, ?_, create_tints_version_one⟩
  · unfold update_by_name
    rw [hspec]
    simp
  · intro o _
    exact ⟨reconcileEntry_id other.tints o, reconcileEntry_name other.tints o⟩
  · intro o n hf
    simp only [reconcileEntry, hf]
  · intro o hf
    simp only [reconcileEntry, hf]

/-- C7 witness: a concrete reconcile — `brand.100` exists and is updated in
place (id 1 kept, version 3 → 4, hex overwritten), `brand.500` is new and
appended verbatim with its fresh id 11 and version 1, and the untouched
`brand.900` entry is retained unchanged. -/
theorem c7_witness :
    update_by_name
      ⟨"brand".data,
        [{ id := 1, version := 3, name := "theme / brand / brand.100".data, value := "aaaaaa".data },
         { id := 2, version := 5, name := "theme / brand / brand.900".data, value := "bbbbbb".data }]⟩
      ⟨"brand".data,
        [{ id := 10, version := 1, name := "theme / brand / brand.100".data, value := "cccccc".data },
         { id := 11, version := 1, name := "theme / brand / brand.500".data, value := "dddddd".data }]⟩ =
      ⟨"brand".data,
        [{ id := 1, version := 4, name := "theme / brand / brand.100".data, value := "cccccc".data },
         { id := 2, version := 5, name := "theme / brand / brand.900".data, value := "bbbbbb".data },
         { id := 11, version := 1, name := "theme / brand / brand.500".data, value := "dddddd".data }]⟩ := by
  have h := c7_theorem
    ⟨"brand".data,
      [{ id := 1, version := 3, name := "theme / brand / brand.100".data, value := "aaaaaa".data },
       { id := 2, version := 5, name := "theme / brand / brand.900".data, value := "bbbbbb".data }]⟩
    ⟨"brand".data,
      [{ id := 10, version := 1, name := "theme / brand / brand.100".data, value := "cccccc".data },
       { id := 11, version := 1, name := "theme / brand / brand.500".data, value := "dddddd".data }]⟩
    (by decide) (by decide) (by decide)
  exact h.1.trans (by decide)

/-- Positional preservation of identity and monotonicity of version: every
entry present before an operation is still at its position afterwards with
the same id and name and a version at least as large. -/
def Preserves (old r : List Color) : Prop :=
  ∀ j o, old.get? j = some o →
    ∃ rr, r.get? j = some rr ∧ rr.id = o.id ∧ rr.name = o.name ∧ o.version ≤ rr.version

theorem preserves_refl (l : List Color) : Preserves l l :=
  fun _ o h => ⟨o, h, rfl, rfl, le_refl _⟩

theorem preserves_trans {a b c : List Color} (h1 : Preserves a b) (h2 : Preserves b c) :
    Preserves a c := by
  intro j o ha
  obtain ⟨rb, hb, hid, hname, hv⟩ := h1 j o ha
  obtain ⟨rc, hc, hid2, hname2, hv2⟩ := h2 j rb hb
  exact ⟨rc, hc, hid2.trans hid, hname2.trans hname, le_trans hv hv2⟩

theorem ubnStep_preserves (n : Color) : ∀ old : List Color, Preserves old (ubnStep old n) := by
  intro old
  induction old with
  | nil => intro j o h; simp at h
  | cons o' rest ih =>
    intro j o h
    by_cases hm : matchesB o' n = true
    · simp only [ubnStep, hm, if_true]
      cases j with
      | zero =>
        have : o' = o := by simpa using h
        subst this
        exact ⟨bump o' n, rfl, rfl, rfl, Nat.le_succ _⟩
      | succ j =>
        have hr : rest.get? j = some o := by simpa using h
        exact ⟨o, by simpa using hr, rfl, rfl, le_refl _⟩
    · have hmf : matchesB o' n = false := by simpa using hm
      simp only [ubnStep, hmf, Bool.false_eq_true, if_false]
      cases j with
      | zero =>
        have : o' = o := by simpa using h
        subst this
        exact ⟨o', rfl, rfl, rfl, le_refl _⟩
      | succ j =>
        have hr : rest.get? j = some o := by simpa using h
        obtain ⟨rr, hrr, h1, h2, h3⟩ := ih j o hr
        exact ⟨rr, by simpa using hrr, h1, h2, h3⟩

theorem foldl_ubnStep_preserves : ∀ (news : List Color) (old : List Color),
    Preserves old (news.foldl ubnStep old) := by
  intro news
  induction news with
  | nil => intro old; exact preserves_refl old
  | cons n rest ih =>
    intro old
    simp only [List.foldl_cons]
    exact preserves_trans (ubnStep_preserves n old) (ih (ubnStep old n))

theorem update_by_name_tints (g other : ColorTints) :
    (update_by_name g other).tints = other.tints.foldl ubnStep g.tints := rfl

theorem scales_preserve : ∀ (scales : List ColorTints) (g : ColorTints),
    Preserves g.tints ((scales.foldl update_by_name g).tints) := by
  intro scales
  induction scales with
  | nil => intro g; exact preserves_refl g.tints
  | cons other rest ih =>
    intro g
    simp only [List.foldl_cons]
    refine preserves_trans ?_ (ih (update_by_name g other))
    rw [update_by_name_tints]
    exact foldl_ubnStep_preserves other.tints g.tints

theorem incomp_symm {n m : Color} (h : Incomp n m) : Incomp m n :=
  fun s hs => h s ⟨hs.2, hs.1⟩

theorem not_incomp_self (n : Color) : ¬Incomp n n :=
  fun h => h n.name ⟨matchesB_self n, matchesB_self n⟩

theorem nodup_of_pairwise_incomp {news : List Color} (h : List.Pairwise Incomp news) :
    news.Nodup := by
  refine h.imp ?_
  intro a b hinc heq
  exact not_incomp_self b (heq ▸ hinc)

theorem matchesB_false_of_incomp {m n : Color} (h : Incomp n m) : matchesB m n = false := by
  by_contra hc
  have hc' : matchesB m n = true := by simpa using hc
  have h2 := no_other_match h hc'
  exact absurd (matchesB_self m) (by simp [h2])

theorem incomp_of_mem_ne {news : List Color} (hpair : List.Pairwise Incomp news)
    {a b : Color} (ha : a ∈ news) (hb : b ∈ news) (hne : a ≠ b) : Incomp a b :=
  hpair.forall (fun _ _ h => incomp_symm h) ha hb hne

/-- Within a pairwise-incompatible scale, a color matches (as an old entry)
only itself. -/
theorem matchesB_mem_true_eq {news : List Color} (hpair : List.Pairwise Incomp news)
    {a n : Color} (ha : a ∈ news) (hn : n ∈ news) (hm : matchesB a n = true) : a = n := by
  by_contra hne
  have hinc : Incomp n a := incomp_of_mem_ne hpair hn ha (fun h => hne h.symm)
  rw [matchesB_false_of_incomp hinc] at hm
  cases hm

/-- A member of a pairwise-incompatible scale finds itself as its first
(and only) match. -/
theorem find_self_of_pairwise : ∀ {news : List Color}, List.Pairwise Incomp news →
    ∀ n ∈ news, news.find? (fun m => matchesB n m) = some n := by
  intro news
  induction news with
  | nil => intro _ n hn; simp at hn
  | cons m0 rest ih =>
    intro hp n hn
    rcases List.mem_cons.mp hn with rfl | hr
    · rw [List.find?_cons_of_pos _ (matchesB_self n)]
    · have hinc : Incomp m0 n := (List.pairwise_cons.mp hp).1 n hr
      have hfalse : matchesB n m0 = false := matchesB_false_of_incomp hinc
      rw [List.find?_cons_of_neg _ (by simp [hfalse])]
      exact ih (List.pairwise_cons.mp hp).2 n hr

theorem findCongr {α : Type} {p q : α → Bool} :
    ∀ {l : List α}, (∀ a ∈ l, p a = q a) → l.find? p = l.find? q := by
  intro l
  induction l with
  | nil => intro _; rfl
  | cons a t ih =>
    intro h
    have ha := h a (List.mem_cons_self a t)
    by_cases hq : q a = true
    · rw [List.find?_cons_of_pos _ (ha.trans hq), List.find?_cons_of_pos _ hq]
    · have hq' : q a = false := by simpa using hq
      rw [List.find?_cons_of_neg _ (by simp [ha, hq']),
        List.find?_cons_of_neg _ (by simp [hq'])]
      exact ih (fun x hx => h x (List.mem_cons_of_mem _ hx))

theorem reconcileEntry_find_name {o o' : Color} (news : List Color) (h : o.name = o'.name) :
    news.find? (fun n => matchesB o n) = news.find? (fun n => matchesB o' n) :=
  findCongr (fun n _ => matchesB_name_eq n h)

theorem bump_version (o n : Color) : (bump o n).version = o.version + 1 := rfl

theorem bump_value (o n : Color) : (bump o n).value = n.value := rfl

/-- Reconciling an already-reconciled entry leaves the hex unchanged: the
second pass rediscovers the same matching color and writes the same value. -/
theorem reconcileEntry_value_stable (news : List Color) (o : Color) :
    (reconcileEntry news (reconcileEntry news o)).value = (reconcileEntry news o).value := by
  rcases hf : news.find? (fun n => matchesB o n) with _ | n
  · have h1 : reconcileEntry news o = o := by simp only [reconcileEntry, hf]
    rw [h1, h1]
  · have h1 : reconcileEntry news o = bump o n := by simp only [reconcileEntry, hf]
    rw [h1]
    have hf2 : news.find? (fun m => matchesB (bump o n) m) = some n :=
      (reconcileEntry_find_name news (bump_name o n)).trans hf
    simp only [reconcileEntry, hf2, bump_value]

/-- A matched entry comes out of `reconcileEntry` with its version bumped
by exactly one. -/
theorem reconcileEntry_version_matched {o : Color} {news : List Color}
    (h : news.any (fun n => matchesB o n) = true) :
    (reconcileEntry news o).version = o.version + 1 := by
  obtain ⟨n, hn, hm⟩ := List.any_eq_true.mp h
  rcases hf : news.find? (fun m => matchesB o m) with _ | n'
  · rw [List.find?_eq_none] at hf
    exact absurd hm (by simpa using hf n hn)
  · simp only [reconcileEntry, hf, bump_version]

theorem filter_length_le_one {α : Type} {p : α → Bool} :
    ∀ {l : List α}, l.Nodup → (∀ a ∈ l, ∀ b ∈ l, p a = true → p b = true → a = b) →
      (l.filter p).length ≤ 1 := by
  intro l
  induction l with
  | nil => intro _ _; simp
  | cons a t ih =>
    intro hnd hu
    rw [List.filter_cons]
    by_cases hp : p a = true
    · have ht : t.filter p = [] := by
        rw [List.filter_eq_nil_iff]
        intro b hb hpb
        have hab : a = b := hu a (List.mem_cons_self a t) b (List.mem_cons_of_mem _ hb)
          hp (by simpa using hpb)
        exact (List.nodup_cons.mp hnd).1 (by rw [hab]; exact hb)
      simp [hp, ht]
    · have hp' : p a = false := by simpa using hp
      simp only [hp', Bool.false_eq_true, if_false]
      exact ih (List.nodup_cons.mp hnd).2
        (fun x hx y hy => hu x (List.mem_cons_of_mem _ hx) y (List.mem_cons_of_mem _ hy))

/-- After one reconcile pass, each generated color still matches at most one
entry of the merged list. -/
theorem second_merge_filter_le {old news : List Color}
    (hpair : List.Pairwise Incomp news)
    (h2 : ∀ n ∈ news, (old.filter (fun o => matchesB o n)).length ≤ 1) :
    ∀ n ∈ news,
      ((old.map (reconcileEntry news) ++
        news.filter (fun m => !(old.any (fun o => matchesB o m)))).filter
          (fun o => matchesB o n)).length ≤ 1 := by
  intro n hn
  rw [List.filter_append, List.length_append]
  have hcong : old.filter ((fun o => matchesB o n) ∘ reconcileEntry news) =
      old.filter (fun o => matchesB o n) :=
    List.filter_congr (fun o _ => matchesB_name_eq n (reconcileEntry_name news o))
  have hmaplen : ((old.map (reconcileEntry news)).filter (fun o => matchesB o n)).length =
      (old.filter (fun o => matchesB o n)).length := by
    rw [List.filter_map, hcong, List.length_map]
  by_cases hP : old.any (fun o => matchesB o n) = true
  · have htail0 : (news.filter (fun m => !(old.any (fun o => matchesB o m)))).filter
        (fun o => matchesB o n) = [] := by
      rw [List.filter_eq_nil_iff]
      intro b hb hmb
      have hbmem := List.mem_filter.mp hb
      have hbn : b = n := matchesB_mem_true_eq hpair hbmem.1 hn (by simpa using hmb)
      have h2b : !(old.any (fun o => matchesB o (if True then b else n))) = true := by
        simpa using hbmem.2
      rw [if_pos trivial, hbn, hP] at h2b
      simp at h2b
    rw [hmaplen, htail0]
    simpa using h2 n hn
  · have hP' : old.any (fun o => matchesB o n) = false := by simpa using hP
    have hmap0 : old.filter (fun o => matchesB o n) = [] := by
      rw [List.filter_eq_nil_iff]
      intro o ho hmo
      have hT : old.any (fun o => matchesB o n) = true :=
        List.any_eq_true.mpr ⟨o, ho, by simpa using hmo⟩
      rw [hT] at hP'
      cases hP'
    have htail_le : ((news.filter (fun m => !(old.any (fun o => matchesB o m)))).filter
        (fun o => matchesB o n)).length ≤ 1 := by
      apply filter_length_le_one ((nodup_of_pairwise_incomp hpair).filter _)
      intro a ha b hb hpa hpb
      have han : a = n := matchesB_mem_true_eq hpair (List.mem_filter.mp ha).1 hn hpa
      have hbn : b = n := matchesB_mem_true_eq hpair (List.mem_filter.mp hb).1 hn hpb
      rw [han, hbn]
    rw [hmaplen, hmap0]
    simpa using htail_le

/-- C8 (confirmed): across any sequence of `update_by_name` reconciles, every
entry keeps its position, its `id` and its `name`, and its `version` never
decreases; and re-merging the identical generated scale into an
already-reconciled group maps every entry through `reconcileEntry` again,
appending nothing — each entry keeps its `id`, its hex is rewritten to the
value it already has, and every matched entry's version is incremented by
exactly one. -/
theorem c8_theorem :
    (∀ (scales : List ColorTints) (g : ColorTints),
      Preserves g.tints ((scales.foldl update_by_name g).tints)) ∧
    (∀ (g other : ColorTints),
      (other.tints.map (fun n => lastSegment n.name)).Pairwise (· ≠ ·) →
      (∀ n₁ ∈ other.tints, ∀ n₂ ∈ other.tints,
        (lastSegment n₁.name).length = (lastSegment n₂.name).length) →
      (∀ n ∈ other.tints, (g.tints.filter (fun o => matchesB o n)).length ≤ 1) →
      (update_by_name (update_by_name g other) other =
        ⟨g.name, (update_by_name g other).tints.map (reconcileEntry other.tints)⟩) ∧
      (∀ o : Color, (reconcileEntry other.tints o).id = o.id) ∧
      (∀ o ∈ (update_by_name g other).tints,
        (reconcileEntry other.tints o).value = o.value) ∧
      (∀ o : Color, other.tints.any (fun n => matchesB o n) = true →
        (reconcileEntry other.tints o).version = o.version + 1)) := by
  refine ⟨scales_preserve, ?_⟩
  intro g other hdist hlen h2
  have hpair : List.Pairwise Incomp other.tints := by
    have hne : other.tints.Pairwise
        (fun n₁ n₂ => lastSegment n₁.name ≠ lastSegment n₂.name) :=
      (List.pairwise_map.mp hdist)
    exact hne.imp_of_mem (fun ha hb hne' =>
      incomp_of_ne_of_length hne' (hlen _ ha _ hb))
  have hR1 : (update_by_name g other).tints =
      g.tints.map (reconcileEntry other.tints) ++
        other.tints.filter (fun n => !(g.tints.any (fun o => matchesB o n))) := by
    rw [update_by_name_tints]
    have hspec := ubn_fold_spec other.tints g.tints [] hpair h2 (by simp)
    rw [List.append_nil] at hspec
    rw [hspec]
    simp
  have h2' : ∀ n ∈ other.tints,
      ((update_by_name g other).tints.filter (fun o => matchesB o n)).length ≤ 1 := by
    intro n hn
    rw [hR1]
    exact second_merge_filter_le hpair h2 n hn
  have hany : ∀ n ∈ other.tints,
      (update_by_name g other).tints.any (fun o => matchesB o n) = true := by
    intro n hn
    rw [hR1, List.any_append]
    by_cases hg : g.tints.any (fun o => matchesB o n) = true
    · obtain ⟨o, ho, hmo⟩ := List.any_eq_true.mp hg
      have hx : matchesB (reconcileEntry other.tints o) n = true := by
        rw [matchesB_name_eq n (reconcileEntry_name other.tints o)]
        simpa using hmo
      have hmapped : (g.tints.map (reconcileEntry other.tints)).any
          (fun o => matchesB o n) = true := by
        rw [List.any_map]
        exact List.any_eq_true.mpr ⟨o, ho, by simpa [Function.comp] using hx⟩
      simp [hmapped]
    · have hg' : g.tints.any (fun o => matchesB o n) = false := by simpa using hg
      have hmem : n ∈ other.tints.filter
          (fun m => !(g.tints.any (fun o => matchesB o m))) :=
        List.mem_filter.mpr ⟨hn, by simp [hg']⟩
      have htl : (other.tints.filter (fun m => !(g.tints.any (fun o => matchesB o m)))).any
          (fun o => matchesB o n) = true :=
        List.any_eq_true.mpr ⟨n, hmem, by simp [matchesB_self]⟩
      simp [htl]
  refine ⟨?_, fun o => reconcileEntry_id other.tints o, ?_,
    fun o h => reconcileEntry_version_matched h⟩
  · have hd : update_by_name (update_by_name g other) other =
        (⟨g.name, other.tints.foldl ubnStep (update_by_name g other).tints⟩ : ColorTints) :=
      rfl
    have hspec2 := ubn_fold_spec other.tints (update_by_name g other).tints [] hpair h2'
      (by simp)
    rw [List.append_nil] at hspec2
    have hempty : other.tints.filter
        (fun n => !((update_by_name g other).tints.any (fun o => matchesB o n))) = [] := by
      rw [List.filter_eq_nil_iff]
      intro n hn hcontra
      have h' : !((update_by_name g other).tints.any (fun o => matchesB o n)) = true := by
        simpa using hcontra
      rw [hany n hn] at h'
      simp at h'
    rw [hempty, List.append_nil] at hspec2
    rw [hd, hspec2, List.append_nil]
  · intro o ho
    rw [hR1] at ho
    rcases List.mem_append.mp ho with h | h
    · obtain ⟨o0, _, rfl⟩ := List.mem_map.mp h
      exact reconcileEntry_value_stable other.tints o0
    · have hon : o ∈ other.tints := (List.mem_filter.mp h).1
      have hfind := find_self_of_pairwise hpair o hon
      simp only [reconcileEntry, hfind, bump_value]

/-- C8 witness: re-merging the identical scale into the already-reconciled
group of the concrete example keeps ids 1, 2 and 11, rewrites the hexes to
the values they already have, bumps the two matched versions again
(4 → 5 and 1 → 2) and leaves the untouched `brand.900` entry alone. -/
theorem c8_witness :
    update_by_name
      (update_by_name
        ⟨"brand".data,
          [{ id := 1, version := 3, name := "theme / brand / brand.100".data, value := "aaaaaa".data },
           { id := 2, version := 5, name := "theme / brand / brand.900".data, value := "bbbbbb".data }]⟩
        ⟨"brand".data,
          [{ id := 10, version := 1, name := "theme / brand / brand.100".data, value := "cccccc".data },
           { id := 11, version := 1, name := "theme / brand / brand.500".data, value := "dddddd".data }]⟩)
      ⟨"brand".data,
        [{ id := 10, version := 1, name := "theme / brand / brand.100".data, value := "cccccc".data },
         { id := 11, version := 1, name := "theme / brand / brand.500".data, value := "dddddd".data }]⟩ =
    ⟨"brand".data,
      [{ id := 1, version := 5, name := "theme / brand / brand.100".data, value := "cccccc".data },
       { id := 2, version := 5, name := "theme / brand / brand.900".data, value := "bbbbbb".data },
       { id := 11, version := 2, name := "theme / brand / brand.500".data, value := "dddddd".data }]⟩ := by
  have h := (c8_theorem.2
    ⟨"brand".data,
      [{ id := 1, version := 3, name := "theme / brand / brand.100".data, value := "aaaaaa".data },
       { id := 2, version := 5, name := "theme / brand / brand.900".data, value := "bbbbbb".data }]⟩
    ⟨"brand".data,
      [{ id := 10, version := 1, name := "theme / brand / brand.100".data, value := "cccccc".data },
       { id := 11, version := 1, name := "theme / brand / brand.500".data, value := "dddddd".data }]⟩
    (by decide) (by decide) (by decide)).1
  exact h.trans (by decide)

/-- C9 witness: the concrete request `brand #00fbb0 @ 500` produces exactly
nine colors named `theme / brand / brand.100` … `theme / brand / brand.900`
in ascending stop order. -/
theorem c9_witness :
    ∃ tints, create_tints
        { name := "brand".data, value := "#00fbb0".data, stop := 500, l_min := 0, l_max := 100 }
        "theme".data 0 = .ok tints ∧
      tints.tints.map (fun c => c.name) =
        STOPS.map (fun stop => "theme".data ++ " / ".data ++ "brand".data ++ " / ".data ++
          "brand".data ++ ".".data ++ (Nat.repr stop).data) ∧
      tints.tints.length = 9 :=
  c9_theorem
    { name := "brand".data, value := "#00fbb0".data, stop := 500, l_min := 0, l_max := 100 }
    "theme".data 0 162 100 (2510/51) (by decide) (by decide)

/-- C4 counterexample: the document write-back moves entries of *untouched*
groups.  With `theme / dark / dark.500` loaded first and a scheme that only
names `brand`, the saved list starts with `other / x` and re-appends the
never-updated `dark.500` after it — the entry of the untouched group has
been removed from position 0 and re-appended, contradicting the claim that
only touched groups are removed and re-appended. -/
theorem c4_counterexample :
    (update_colors
        [{ id := 1, version := 1, name := "theme / dark / dark.500".data, value := "111111".data },
         { id := 2, version := 1, name := "other / x".data, value := "222222".data }]
        "theme".data
        [{ name := "brand".data, value := "#00fbb0".data, stop := 500, l_min := 0, l_max := 100 }]
        100).map (fun l => l.map (fun c => c.name)) =
      .ok ["other / x".data, "theme / dark / dark.500".data,
        "theme / brand / brand.100".data, "theme / brand / brand.200".data,
        "theme / brand / brand.300".data, "theme / brand / brand.400".data,
        "theme / brand / brand.500".data, "theme / brand / brand.600".data,
        "theme / brand / brand.700".data, "theme / brand / brand.800".data,
        "theme / brand / brand.900".data] := by
  decide

theorem isPrefixOf_of_append_isPrefixOf {a b s : Str} (h : (a ++ b).isPrefixOf s = true) :
    a.isPrefixOf s = true := by
  rw [List.isPrefixOf_iff_prefix] at h ⊢
  exact (a.prefix_append b).trans h

/-- The removal loop of `apply_color_palette` over all palette groups is a
single filter: an entry survives iff no group's `<group> / <name>` prefix
matches its name. -/
theorem foldl_removeMatching (group : Str) :
    ∀ (ts : List ColorTints) (cv : List Color),
      ts.foldl (fun cvs t => removeMatching cvs (group ++ " / ".data ++ t.name)) cv =
      cv.filter (fun c => !(ts.any (fun t =>
        (group ++ " / ".data ++ t.name).isPrefixOf c.name))) := by
  intro ts
  induction ts with
  | nil =>
    intro cv
    simp
  | cons t rest ih =>
    intro cv
    simp only [List.foldl_cons]
    rw [ih (removeMatching cv (group ++ " / ".data ++ t.name))]
    unfold removeMatching
    rw [List.filter_filter]
    refine List.filter_congr ?_
    intro c _
    rw [List.any_cons, Bool.not_or]
    exact Bool.and_comm _ _

theorem mem_foldl_tints : ∀ (ts : List ColorTints) (acc : List Color) (c : Color),
    c ∈ ts.foldl (fun acc t => acc ++ t.tints) acc → c ∈ acc ∨ ∃ t ∈ ts, c ∈ t.tints := by
  intro ts
  induction ts with
  | nil => intro acc c h; exact Or.inl h
  | cons t rest ih =>
    intro acc c h
    simp only [List.foldl_cons] at h
    rcases ih (acc ++ t.tints) c h with h' | h'
    · rcases List.mem_append.mp h' with h'' | h''
      · exact Or.inl h''
      · exact Or.inr ⟨t, List.mem_cons_self t rest, h''⟩
    · obtain ⟨t', ht', hc⟩ := h'
      exact Or.inr ⟨t', List.mem_cons_of_mem _ ht', hc⟩

/-- C4 (corrected): what `apply_color_palette` actually does.  The saved
list is the input filtered down to the entries matching *no* loaded
palette group's `<group> / <name>` prefix — so every loaded group under
the prefix, touched or not, is removed and re-appended at the end — and,
provided every palette tint's name carries the `<group> / ` prefix,
entries outside the prefix are preserved verbatim and in order (the frame
part of the claim that does hold). -/
theorem c4_amended_theorem (cv : List Color) (palette : ColorPalette) (group : Str)
    (htints : ∀ t ∈ palette.colors, ∀ c ∈ t.tints,
      (group ++ " / ".data).isPrefixOf c.name = true) :
    (apply_color_palette cv palette group =
      cv.filter (fun c => !(palette.colors.any (fun t =>
        (group ++ " / ".data ++ t.name).isPrefixOf c.name))) ++
        palette.colors.foldl (fun acc t => acc ++ t.tints) []) ∧
    ((apply_color_palette cv palette group).filter
        (fun c => !((group ++ " / ".data).isPrefixOf c.name)) =
      cv.filter (fun c => !((group ++ " / ".data).isPrefixOf c.name))) := by
  have hshape : apply_color_palette cv palette group =
      cv.filter (fun c => !(palette.colors.any (fun t =>
        (group ++ " / ".data ++ t.name).isPrefixOf c.name))) ++
        palette.colors.foldl (fun acc t => acc ++ t.tints) [] := by
    show (palette.colors.foldl (fun cvs color =>
        removeMatching cvs (group ++ " / ".data ++ color.name)) cv) ++
        palette.colors.foldl (fun acc color => acc ++ color.tints) [] = _
    rw [foldl_removeMatching]
  refine ⟨hshape, ?_⟩
  rw [hshape, List.filter_append]
  have htail : (palette.colors.foldl (fun acc t => acc ++ t.tints) []).filter
      (fun c => !((group ++ " / ".data).isPrefixOf c.name)) = [] := by
    rw [List.filter_eq_nil_iff]
    intro c hc hout
    rcases mem_foldl_tints palette.colors [] c hc with h | ⟨t, ht, hct⟩
    · simp at h
    · rw [htints t ht c hct] at hout
      simp at hout
  rw [htail, List.append_nil, List.filter_filter]
  refine List.filter_congr ?_
  intro c _
  by_cases hout : (group ++ " / ".data).isPrefixOf c.name = true
  · simp [hout]
  · have hout' : (group ++ " / ".data).isPrefixOf c.name = false :=
      Bool.eq_false_iff.mpr hout
    have hnone : palette.colors.any (fun t =>
        (group ++ " / ".data ++ t.name).isPrefixOf c.name) = false := by
      rw [List.any_eq_false]
      intro t _
      intro hpre
      have := isPrefixOf_of_append_isPrefixOf hpre
      rw [hout'] at this
      cases this
    simp only [hout', hnone]
    rfl

/-- C4 witness: applying a concrete one-group palette under prefix `theme`
leaves the single out-of-prefix entry `other / x` as the only survivor of
the outside-the-prefix filter, verbatim. -/
theorem c4_witness :
    (apply_color_palette
        [{ id := 1, version := 1, name := "theme / dark / dark.500".data, value := "111111".data },
         { id := 2, version := 1, name := "other / x".data, value := "222222".data }]
        ⟨[⟨"brand".data,
           [{ id := 5, version := 1, name := "theme / brand / brand.500".data, value := "00fbb0".data }]⟩]⟩
        "theme".data).filter
      (fun c => !(("theme".data ++ " / ".data).isPrefixOf c.name)) =
    [{ id := 2, version := 1, name := "other / x".data, value := "222222".data }] := by
  have h := (c4_amended_theorem
    [{ id := 1, version := 1, name := "theme / dark / dark.500".data, value := "111111".data },
     { id := 2, version := 1, name := "other / x".data, value := "222222".data }]
    ⟨[⟨"brand".data,
       [{ id := 5, version := 1, name := "theme / brand / brand.500".data, value := "00fbb0".data }]⟩]⟩
    "theme".data (by decide)).2
  exact h.trans (by decide)

theorem clampQ_mem (x lo hi : ℚ) (h : lo ≤ hi) :
    lo ≤ clampQ x lo hi ∧ clampQ x lo hi ≤ hi := by
  unfold clampQ
  split_ifs with h1 h2 <;> constructor <;> linarith

theorem rustRemEuclid_nonneg {x m : ℚ} (hm : 0 < m) : 0 ≤ rustRemEuclid x m := by
  unfold rustRemEuclid
  have h1 : ((⌊x / m⌋ : ℚ)) ≤ x / m := Int.floor_le _
  have h2 := mul_le_mul_of_nonneg_left h1 hm.le
  have h3 : m * (x / m) = x := by field_simp
  linarith

theorem rustRemEuclid_lt {x m : ℚ} (hm : 0 < m) : rustRemEuclid x m < m := by
  unfold rustRemEuclid
  have h1 : x / m < (⌊x / m⌋ : ℚ) + 1 := Int.lt_floor_add_one _
  have h2 := mul_lt_mul_of_pos_left h1 hm
  have h3 : m * (x / m) = x := by field_simp
  have h4 : m * ((⌊x / m⌋ : ℚ) + 1) = m * (⌊x / m⌋ : ℚ) + m := by ring
  linarith

theorem rustAsU32_rustRound_le {y : ℚ} (hy : y ≤ 255) : rustAsU32 (rustRound y) ≤ 255 := by
  have h2 : rustRound y ≤ rustRound 255 := rustRound_mono hy
  have h255 : rustRound (255 : ℚ) = 255 := by decide
  have h3 : rustRound y ≤ 255 := by rw [h255] at h2; exact h2
  have h255f : ⌊(255 : ℚ)⌋ = 255 := by norm_num
  have h4 : ⌊rustRound y⌋ ≤ 255 := by
    have := Int.floor_le_floor h3
    rw [h255f] at this
    exact this
  exact le_trans (min_le_left _ _) (Int.toNat_le.mpr (by exact_mod_cast h4))

/-- Every branch of `hsl_to_rgb`'s sector selection yields channels whose
rounded, truncated values stay at or below 255. -/
theorem branch_channels_le (h s1 l1 cc xx mm : ℚ) (rgb : ℚ × ℚ × ℚ)
    (hs0 : 0 ≤ s1) (hs1 : s1 ≤ 1) (hl0 : 0 ≤ l1) (hl1 : l1 ≤ 1)
    (hcc : cc = (1 - |2 * l1 - 1|) * s1)
    (hxx : xx = cc * (1 - |rustRemEuclid (h / 60) 2 - 1|))
    (hmm : mm = l1 - cc / 2)
    (hrgb : rgb = if 0 ≤ h ∧ h < 60 then (cc, xx, 0)
      else if 60 ≤ h ∧ h < 120 then (xx, cc, 0)
      else if 120 ≤ h ∧ h < 180 then (0, cc, xx)
      else if 180 ≤ h ∧ h < 240 then (0, xx, cc)
      else if 240 ≤ h ∧ h < 300 then (xx, 0, cc)
      else if 300 ≤ h ∧ h < 360 then (cc, 0, xx)
      else (0, 0, 0)) :
    rustAsU32 (rustRound ((rgb.1 + mm) * 255)) ≤ 255 ∧
    rustAsU32 (rustRound ((rgb.2.1 + mm) * 255)) ≤ 255 ∧
    rustAsU32 (rustRound ((rgb.2.2 + mm) * 255)) ≤ 255 := by
  have habs_l2 : 2 * l1 - 1 ≤ |2 * l1 - 1| := le_abs_self _
  have habs_l3 : 1 - 2 * l1 ≤ |2 * l1 - 1| := by
    have h1 := le_abs_self (1 - 2 * l1)
    have h2 : |1 - 2 * l1| = |2 * l1 - 1| := abs_sub_comm _ _
    linarith
  have hrem0 : 0 ≤ rustRemEuclid (h / 60) 2 := rustRemEuclid_nonneg (by norm_num)
  have hrem2 : rustRemEuclid (h / 60) 2 < 2 := rustRemEuclid_lt (by norm_num)
  have habs_r : |rustRemEuclid (h / 60) 2 - 1| ≤ 1 := abs_le.mpr ⟨by linarith, by linarith⟩
  have habs_l : |2 * l1 - 1| ≤ 1 := abs_le.mpr ⟨by linarith, by linarith⟩
  have hc0 : 0 ≤ cc := by rw [hcc]; exact mul_nonneg (by linarith) hs0
  have hcle : cc ≤ 1 - |2 * l1 - 1| := by
    rw [hcc]
    nlinarith [mul_nonneg (sub_nonneg.mpr habs_l) (sub_nonneg.mpr hs1)]
  have hx0 : 0 ≤ xx := by rw [hxx]; exact mul_nonneg hc0 (by linarith)
  have hxc : xx ≤ cc := by
    rw [hxx]
    nlinarith [mul_nonneg hc0 (abs_nonneg (rustRemEuclid (h / 60) 2 - 1))]
  have hkey : ∀ comp : ℚ, 0 ≤ comp → comp ≤ cc →
      rustAsU32 (rustRound ((comp + mm) * 255)) ≤ 255 := by
    intro comp h0c h1c
    apply rustAsU32_rustRound_le
    have hle1 : comp + mm ≤ 1 := by
      rw [hmm]
      linarith
    nlinarith
  rw [hrgb]
  split_ifs <;>
    refine ⟨hkey _ ?_ ?_, hkey _ ?_ ?_, hkey _ ?_ ?_⟩ <;>
    first
      | exact le_rfl
      | exact hc0
      | exact hx0
      | exact hxc

/-- All three channels of `hsl_to_rgb` are at most 255. -/
theorem hsl_to_rgb_channels_le (h s l : ℚ) :
    (hsl_to_rgb h s l).1 ≤ 255 ∧ (hsl_to_rgb h s l).2.1 ≤ 255 ∧
      (hsl_to_rgb h s l).2.2 ≤ 255 := by
  have hs := clampQ_mem s 0 100 (by norm_num)
  have hl := clampQ_mem l 0 100 (by norm_num)
  have hmain := branch_channels_le h (clampQ s 0 100 / 100) (clampQ l 0 100 / 100)
    _ _ _ _
    (by linarith [hs.1]) (by linarith [hs.2]) (by linarith [hl.1]) (by linarith [hl.2])
    rfl rfl rfl rfl
  exact hmain

theorem toHexAux_length_le : ∀ (fuel n k : Nat), n < 16 ^ k →
    (toHexAux fuel n).length ≤ k := by
  intro fuel
  induction fuel with
  | zero => intro n k _; simp [toHexAux]
  | succ fuel ih =>
    intro n k hn
    unfold toHexAux
    by_cases h0 : n = 0
    · simp [h0]
    · rw [if_neg h0, List.length_append]
      cases k with
      | zero =>
        have : n = 0 := by simpa using Nat.lt_one_iff.mp (by simpa using hn)
        exact absurd this h0
      | succ k' =>
        have hdiv : n / 16 < 16 ^ k' := by
          apply Nat.div_lt_of_lt_mul
          rw [pow_succ] at hn
          rw [Nat.mul_comm]
          exact hn
        have := ih (n / 16) k' hdiv
        simp only [List.length_cons, List.length_nil]
        omega

theorem toHex_length_le {n : Nat} (h : n < 16 ^ 6) : (toHex n).length ≤ 6 := by
  unfold toHex
  by_cases h0 : n = 0
  · simp [h0]
  · rw [if_neg h0]
    exact toHexAux_length_le n n 6 h

theorem format06x_length {n : Nat} (h : n < 16 ^ 6) : (format06x n).length = 6 := by
  unfold format06x
  rw [List.length_append, List.length_replicate]
  have := toHex_length_le h
  omega

theorem hexChar_mem (d : Nat) : hexChar d ∈ "0123456789abcdef".data := by
  unfold hexChar
  by_cases hd : d < 16
  · have hd' : d < ("0123456789abcdef".data).length := by
      rw [(by decide : ("0123456789abcdef".data).length = 16)]
      exact hd
    rw [List.getD_eq_getElem _ _ hd']
    exact List.getElem_mem _
  · rw [List.getD_eq_default]
    · decide
    · rw [(by decide : ("0123456789abcdef".data).length = 16)]
      omega

theorem toHexAux_subset : ∀ (fuel n : Nat), ∀ c ∈ toHexAux fuel n,
    c ∈ "0123456789abcdef".data := by
  intro fuel
  induction fuel with
  | zero => intro n c hc; simp [toHexAux] at hc
  | succ fuel ih =>
    intro n c hc
    unfold toHexAux at hc
    by_cases h0 : n = 0
    · rw [if_pos h0] at hc; simp at hc
    · rw [if_neg h0] at hc
      rcases List.mem_append.mp hc with h | h
      · exact ih (n / 16) c h
      · have hce : c = hexChar (n % 16) := by simpa using h
        rw [hce]
        exact hexChar_mem _

theorem format06x_no_hash (n : Nat) : '#' ∉ format06x n := by
  intro hc
  unfold format06x at hc
  have hmem : '#' ∈ "0123456789abcdef".data := by
    rcases List.mem_append.mp hc with h | h
    · have := List.eq_of_mem_replicate h
      cases this
    · unfold toHex at h
      by_cases h0 : n = 0
      · rw [if_pos h0] at h
        simp at h
      · rw [if_neg h0] at h
        exact toHexAux_subset n n '#' h
  exact absurd hmem (by decide)

theorem pack_lt {r g b : Nat} (hr : r ≤ 255) (hg : g ≤ 255) (hb : b ≤ 255) :
    (r <<< 16) ||| (g <<< 8) ||| (b <<< 0) < 16 ^ 6 := by
  have h16 : (16 : ℕ) ^ 6 = 2 ^ 24 := by norm_num
  rw [h16]
  have hr' : r <<< 16 < 2 ^ 24 := by
    rw [Nat.shiftLeft_eq]
    calc r * 2 ^ 16 ≤ 255 * 2 ^ 16 := Nat.mul_le_mul_right _ hr
      _ < 2 ^ 24 := by norm_num
  have hg' : g <<< 8 < 2 ^ 24 := by
    rw [Nat.shiftLeft_eq]
    calc g * 2 ^ 8 ≤ 255 * 2 ^ 8 := Nat.mul_le_mul_right _ hg
      _ < 2 ^ 24 := by norm_num
  have hb' : b <<< 0 < 2 ^ 24 := by
    rw [Nat.shiftLeft_eq]
    calc b * 2 ^ 0 ≤ 255 * 1 := by simpa using hb
      _ < 2 ^ 24 := by norm_num
  exact Nat.or_lt_two_pow (Nat.or_lt_two_pow hr' hg') hb'

/-- The generator's hex strings are always exactly six characters. -/
theorem hsl_to_hex_length (h s l : ℚ) : (hsl_to_hex h s l).length = 6 := by
  have hch := hsl_to_rgb_channels_le h s l
  exact format06x_length (pack_lt hch.1 hch.2.1 hch.2.2)

/-- The generator's hex strings never contain `#`. -/
theorem hsl_to_hex_no_hash (h s l : ℚ) : '#' ∉ hsl_to_hex h s l :=
  format06x_no_hash _

theorem hex_to_rgb_wrong_length {v : Str} (h : v.length ≠ 7) :
    hex_to_rgb v = .error .invalidFormat := by
  unfold hex_to_rgb
  rw [if_pos h]

theorem hex_to_hsl_wrong_length {v : Str} (h : v.length ≠ 7) :
    hex_to_hsl v = .error .invalidFormat := by
  unfold hex_to_hsl
  rw [hex_to_rgb_wrong_length h]

theorem hex_to_hsl_ok_shape {v : Str} {r : ℚ × ℚ × ℚ} (h : hex_to_hsl v = .ok r) :
    v.length = 7 ∧ ['#'].isPrefixOf v = true := by
  by_cases h7 : v.length = 7
  · refine ⟨h7, ?_⟩
    by_cases hp : ['#'].isPrefixOf v = true
    · exact hp
    · have hrgb : hex_to_rgb v = .error .invalidFormat := by
        unfold hex_to_rgb
        rw [if_neg (by simp [h7]), if_pos hp]
      have hcontra : hex_to_hsl v = .error .invalidFormat := by
        unfold hex_to_hsl
        rw [hrgb]
      rw [hcontra] at h
      simp at h
  · have hcontra := hex_to_hsl_wrong_length h7
    rw [hcontra] at h
    simp at h

/-- C10 (confirmed): for every hue, saturation and lightness, `hsl_to_hex`
emits exactly six characters and never a `#`, while `hex_to_hsl` only
accepts 7-character strings beginning with `#`; hence the round trip
`hex_to_hsl (hsl_to_hex h s l)` always fails with `InvalidFormat` — every
hex value the generator writes is rejected as a seed by the codec's own
parser unless a `#` is prepended externally. -/
theorem c10_theorem :
    (∀ h s l : ℚ, (hsl_to_hex h s l).length = 6 ∧ '#' ∉ hsl_to_hex h s l ∧
      hex_to_hsl (hsl_to_hex h s l) = .error .invalidFormat) ∧
    (∀ (v : Str) (r : ℚ × ℚ × ℚ), hex_to_hsl v = .ok r →
      v.length = 7 ∧ ['#'].isPrefixOf v = true) := by
  refine ⟨fun h s l => ⟨hsl_to_hex_length h s l, hsl_to_hex_no_hash h s l, ?_⟩,
    fun v r hok => hex_to_hsl_ok_shape hok⟩
  exact hex_to_hsl_wrong_length (by rw [hsl_to_hex_length h s l]; omega)

/-- C10 witness: the seed of the running example round-trips into
`InvalidFormat`, and the accepted seed `#00fbb0` indeed has seven
characters led by `#`. -/
theorem c10_witness :
    hex_to_hsl (hsl_to_hex 162 100 (2510 / 51)) = .error .invalidFormat ∧
    ("#00fbb0".data.length = 7 ∧ ['#'].isPrefixOf "#00fbb0".data = true) :=
  ⟨(c10_theorem.1 162 100 (2510 / 51)).2.2,
   c10_theorem.2 "#00fbb0".data (162, 100, 2510 / 51) (by decide)⟩
